import Mathlib

/-!
Verification of the Galaxy-of-Knowledge repository: the frontend helper
`randomClusterColor` (src/frontend/src/utils/helper.ts) and the knowledge-graph
construction service described in the specification.  The backend file
`api/v1/services/graph_service.py` is referenced by the repository's migration
notes but its body is not part of the source snapshot, so the graph core is
modelled from the specification.
-/

namespace GoK

/-! ## Frontend helper: randomClusterColor (src/frontend/src/utils/helper.ts) -/

/-- JavaScript object assignment `result[k] = v` on a string-keyed record,
represented as an insertion-ordered association list: an existing key keeps its
position and receives the new value, a fresh key is appended. -/
def setKey (m : List (String × String)) (k v : String) : List (String × String) :=
  if m.any (fun p => p.1 == k) then
    m.map (fun p => if p.1 == k then (k, v) else p)
  else m ++ [(k, v)]

/-- One `Math.random()` draw is abstracted as a rational in `[0, 1)` supplied by
the environment; draw `i` is used for the `i`-th cluster of the list, and
`Math.floor(Math.random() * colorsList.length)` becomes the floor of the exact
product.  JavaScript out-of-range indexing yields `undefined`; it is modelled by
the empty-string default of `List.getD`, unreachable when `colorsList` is
non-empty and the draws lie in `[0, 1)`. -/
def randomClusterColorGo (colorsList : List String) (rand : Nat → ℚ) :
    Nat → List String → List (String × String) → List (String × String)
  | _, [], result => result
  | i, c :: rest, result =>
      let idx : Nat := (⌊rand i * (colorsList.length : ℚ)⌋).toNat
      randomClusterColorGo colorsList rand (i + 1) rest
        (setKey result c (colorsList.getD idx ""))

/-- Shallow embedding of `randomClusterColor(clustersList, colorsList)`: for each
cluster name in order, pick the color of `colorsList` at the freshly drawn
random index and assign it under the cluster-name key. -/
def randomClusterColor (clustersList colorsList : List String)
    (rand : Nat → ℚ) : List (String × String) :=
  randomClusterColorGo colorsList rand 0 clustersList []

/-! ## Graph construction core, modelled from the spec -/

/-- Modelled from the spec: the closed relation-mode enum (spec section 3). -/
inductive Mode
  | Author | Citing | Cited | KeyKnowledge | Similar
  deriving DecidableEq, Repr

/-- Modelled from the spec: `Citing` and `Cited` are the directed modes
(spec sections 3 and 4.4). -/
def Mode.directed : Mode → Bool
  | .Citing => true
  | .Cited => true
  | _ => false

/-- Modelled from the spec: one `(relatedId, weight, label)` triple returned by a
`RelationFetcher` (spec section 4.2); the float weight is modelled as a
rational. -/
structure Rel where
  relatedId : String
  weight : ℚ
  label : String
  deriving DecidableEq, Repr

/-- Modelled from the spec: display attributes returned by
`PaperMetadataProvider` (spec sections 2 and 6). -/
structure PaperMeta where
  title : String
  cluster : String
  authors : List String
  deriving DecidableEq, Repr

/-- Modelled from the spec: the unchanged backing store behind the two
collaborator interfaces (spec section 6): `getMeta` is
`PaperMetadataProvider.get` (`none` means NotFound) and `fetch` is the selected
mode's `RelationFetcher.fetch`, where `none` models a `FetcherTimeout` or
`FetcherUnavailable` outcome (spec section 7). -/
structure Store where
  getMeta : String → Option PaperMeta
  fetch : Mode → String → Option (List Rel)

/-- Modelled from the spec: a graph request (spec sections 3 and 6).
`maxNodes ≥ 1` is the stated invariant and appears as a hypothesis of the
theorems; `similarityTopK` only parametrises the external `Similar` fetcher and
has no effect on the core, so it is omitted. -/
structure GraphRequest where
  rootId : String
  mode : Mode
  maxNodes : Nat
  maxDepth : Nat
  deriving DecidableEq, Repr

/-- Modelled from the spec: the internal node record kept by `NodeRegistry`;
colour and size are attached at assembly time (spec sections 4.4 and 4.6). -/
structure NodeRec where
  id : String
  label : String
  cluster : String
  depth : Nat
  deriving DecidableEq, Repr

/-- Modelled from the spec: the internal edge record kept by `EdgeRegistry`
(spec section 4.4). -/
structure EdgeRec where
  sourceId : String
  targetId : String
  label : String
  weight : ℚ
  deriving DecidableEq, Repr

/-- Modelled from the spec: the `EdgeRegistry` key test — exact ordered pair for
directed modes, unordered pair otherwise (spec section 4.4). -/
def edgeKeyMatches (directed : Bool) (a b : String) (e : EdgeRec) : Bool :=
  if directed then e.sourceId == a && e.targetId == b
  else (e.sourceId == a && e.targetId == b) || (e.sourceId == b && e.targetId == a)

/-- Modelled from the spec: `EdgeRegistry.add(a, b, label, weight, directed)`
dedupes by unordered pair for symmetric relations and by exact ordered pair for
directed ones; a relation already recorded under the same key is not re-added
(spec sections 4.3 step 2c and 4.4). -/
def EdgeRegistry.add (directed : Bool) (edges : List EdgeRec)
    (a b lbl : String) (w : ℚ) : List EdgeRec :=
  if edges.any (edgeKeyMatches directed a b) then edges
  else edges ++ [⟨a, b, lbl, w⟩]

/-- Modelled from the spec: edge orientation per mode — for `Citing` the fetched
paper cites the expanded one (`sourceId = citer`, `targetId = cited`, spec
sections 3 and 4.2); every other mode records the pair as discovered. -/
def edgeEnds (mode : Mode) (u related : String) : String × String :=
  match mode with
  | .Citing => (related, u)
  | _ => (u, related)

/-- Modelled from the spec: the mutable state accumulated by one build — the
admitted ids (`visited`), the node and edge registries and the truncation
flag (spec sections 4.3 and 4.4). -/
structure BuildState where
  visited : List String
  nodes : List NodeRec
  edges : List EdgeRec
  truncated : Bool
  deriving DecidableEq, Repr

/-- Modelled from the spec: node labelling via `PaperMetadataProvider`; a related
paper without metadata is labelled by its own id with an empty cluster (the
spec fixes the metadata behaviour only for the root, spec section 4.2). -/
def mkNodeRec (store : Store) (id : String) (depth : Nat) : NodeRec :=
  match store.getMeta id with
  | some m => ⟨id, m.title, m.cluster, depth⟩
  | none => ⟨id, id, "", depth⟩

/-- Modelled from the spec: processing of one fetched `(relatedId, weight,
label)` triple for frontier node `u` expanded at level `d` (spec section 4.3
step 2c): discard self-relations; register the edge through the deduplicating
registry; admit an unvisited neighbour at depth `d + 1` while the budget allows
and queue it for the next frontier; once the budget is exhausted keep the edge
only and raise the truncation flag (`BudgetExhausted`, spec section 7). -/
def processRel (store : Store) (mode : Mode) (maxNodes d : Nat) (u : String)
    (acc : BuildState × List String) (r : Rel) : BuildState × List String :=
  let st := acc.1
  if r.relatedId = u then acc
  else
    let ends := edgeEnds mode u r.relatedId
    let st' := { st with
      edges := EdgeRegistry.add mode.directed st.edges ends.1 ends.2 r.label r.weight }
    if r.relatedId ∈ st.visited then (st', acc.2)
    else if st.visited.length < maxNodes then
      ({ st' with
          visited := st.visited ++ [r.relatedId]
          nodes := st.nodes ++ [mkNodeRec store r.relatedId (d + 1)] },
        acc.2 ++ [r.relatedId])
    else ({ st' with truncated := true }, acc.2)

/-- Modelled from the spec: expansion of one frontier node — a failed fetch
(`FetcherTimeout` / `FetcherUnavailable`) contributes zero neighbours and raises
the truncation flag without aborting the build (spec section 7); a successful
fetch processes its triples in order (the concurrent fan-out of spec section 5
is order-insensitive on the serialized registries and is modelled
sequentially). -/
def expandNode (store : Store) (mode : Mode) (maxNodes d : Nat)
    (acc : BuildState × List String) (u : String) : BuildState × List String :=
  match store.fetch mode u with
  | none => ({ acc.1 with truncated := true }, acc.2)
  | some rels => rels.foldl (processRel store mode maxNodes d u) acc

/-- Modelled from the spec: the level-synchronized BFS loop (spec section 4.3
step 2): while the frontier is non-empty and the depth limit is not reached,
expand every frontier node, then advance to the next level.  A frontier at
depth `d` is expanded only when `d < maxDepth`, so that discovered neighbours
satisfy `depth ≤ maxDepth` (spec sections 3 and 8); expansion continues after
the node budget fills so that cross-edges into admitted nodes are still
recorded (spec section 4.3 step 2c). -/
def bfsLoop (store : Store) (mode : Mode) (maxNodes : Nat) :
    Nat → Nat → List String → BuildState → BuildState
  | 0, _, _, st => st
  | fuel + 1, d, frontier, st =>
      if frontier = [] then st
      else
        let p := frontier.foldl (expandNode store mode maxNodes d) (st, [])
        bfsLoop store mode maxNodes fuel (d + 1) p.2 p.1

/-- Modelled from the spec: the fixed display palette used by
`ClusterColorAssigner` (spec section 4.5). -/
def palette : List String :=
  ["#e6194b", "#3cb44b", "#ffe119", "#4363d8", "#f58231",
   "#911eb4", "#46f0f0", "#f032e6", "#bcf60c", "#fabebe"]

/-- Modelled from the spec: a stable, input-determined (not time-seeded) hash of
the cluster name (spec section 4.5); the concrete mixing constants are
implementation-defined. -/
def stableHash (s : String) : Nat :=
  s.data.foldl (fun h c => h * 31 + c.toNat) 7

/-- Modelled from the spec: `ClusterColorAssigner.colorFor` — the stable hash of
the cluster name taken modulo the palette size selects the colour (spec
section 4.5). -/
def colorFor (cluster : String) : String :=
  palette.getD (stableHash cluster % palette.length) "#3498db"

/-- Modelled from the spec: a public graph node (spec sections 3 and 6). -/
structure GraphNode where
  id : String
  label : String
  cluster : String
  color : String
  size : Nat
  depth : Nat
  deriving DecidableEq, Repr

/-- Modelled from the spec: a public graph edge (spec sections 3 and 6). -/
structure GraphEdge where
  sourceId : String
  targetId : String
  label : String
  weight : ℚ
  color : String
  deriving DecidableEq, Repr

/-- Modelled from the spec: the public build result (spec sections 3 and 6). -/
structure GraphResult where
  rootId : String
  nodes : List GraphNode
  edges : List GraphEdge
  truncated : Bool
  deriving DecidableEq, Repr

/-- Modelled from the spec: the fatal error taxonomy visible to the caller; the
`UnsupportedMode` case is unreachable over the closed `Mode` enum and is not
modelled (spec section 7). -/
inductive BuildError
  | RootNotFound
  deriving DecidableEq, Repr

/-- Modelled from the spec: an edge's display colour — the spec fixes no
per-relation colour scheme, so a constant is used. -/
def edgeColor : String := "#888"

/-- Modelled from the spec: a node's size is its realized in-graph degree over
the kept edges at assembly time (spec sections 3 and 4.6). -/
def degree (edges : List EdgeRec) (id : String) : Nat :=
  (edges.filter (fun e => e.sourceId == id || e.targetId == id)).length

/-- Modelled from the spec: the edges kept at assembly time — an edge
referencing an id that was never registered as a node is dropped
(spec section 4.6). -/
def keptEdges (st : BuildState) : List EdgeRec :=
  st.edges.filter
    (fun e => st.visited.contains e.sourceId && st.visited.contains e.targetId)

/-- Modelled from the spec: `ResultAssembler` (spec section 4.6) — drop edges
referencing an id that was never registered as a node, compute sizes from the
kept edges, attach the deterministic cluster colours, and project the
registries into the public `GraphResult`. -/
def assemble (req : GraphRequest) (st : BuildState) : GraphResult :=
  { rootId := req.rootId
    nodes := st.nodes.map (fun n =>
      ⟨n.id, n.label, n.cluster, colorFor n.cluster, degree (keptEdges st) n.id, n.depth⟩)
    edges := (keptEdges st).map
      (fun e => ⟨e.sourceId, e.targetId, e.label, e.weight, edgeColor⟩)
    truncated := st.truncated }

/-- Modelled from the spec: the whole build (spec section 4.3): resolve the root
through `PaperMetadataProvider` (`RootNotFound` aborts before any traversal
state exists, spec section 7), seed the registries and the frontier with the
root at depth 0, run the level-synchronized BFS, and assemble the result. -/
def build (store : Store) (req : GraphRequest) : Except BuildError GraphResult :=
  match store.getMeta req.rootId with
  | none => .error .RootNotFound
  | some m =>
      let st0 : BuildState :=
        { visited := [req.rootId]
          nodes := [⟨req.rootId, m.title, m.cluster, 0⟩]
          edges := []
          truncated := false }
      .ok (assemble req (bfsLoop store req.mode req.maxNodes req.maxDepth 0 [req.rootId] st0))

/-- Modelled from the spec: the neighbour ids a fully-available fetcher yields
for `u`, with self-relations discarded (spec section 4.3). -/
def nbrs (store : Store) (mode : Mode) (u : String) : List String :=
  (((store.fetch mode u).getD []).map Rel.relatedId).filter (fun v => v != u)

/-- Modelled from the spec: the set of papers reachable from `root` within `d`
relation steps — the true relation graph within the depth bound of spec
section 8. -/
def reachSet (store : Store) (mode : Mode) (root : String) : Nat → Finset String
  | 0 => {root}
  | d + 1 =>
      reachSet store mode root d ∪
        (reachSet store mode root d).biUnion (fun u => (nbrs store mode u).toFinset)

/-! ## Lemmas about setKey and randomClusterColor -/

lemma mem_keys_any (m : List (String × String)) (k : String) :
    m.any (fun p => p.1 == k) = true ↔ k ∈ m.map Prod.fst := by
  simp only [List.any_eq_true, beq_iff_eq, List.mem_map]

lemma setKey_keys (m : List (String × String)) (k v : String) :
    (setKey m k v).map Prod.fst =
      if k ∈ m.map Prod.fst then m.map Prod.fst else m.map Prod.fst ++ [k] := by
  unfold setKey
  by_cases h : m.any (fun p => p.1 == k) = true
  · rw [if_pos h, if_pos ((mem_keys_any m k).mp h), List.map_map]
    apply List.map_congr_left
    intro p _
    by_cases hp : p.1 = k
    · simp [hp]
    · simp [hp]
  · rw [if_neg h, if_neg (fun hk => h ((mem_keys_any m k).mpr hk))]
    simp

lemma setKey_nodup (m : List (String × String)) (k v : String)
    (h : (m.map Prod.fst).Nodup) : ((setKey m k v).map Prod.fst).Nodup := by
  rw [setKey_keys]
  by_cases hk : k ∈ m.map Prod.fst
  · rwa [if_pos hk]
  · rw [if_neg hk]
    simp only [List.nodup_append, List.nodup_cons, List.not_mem_nil, not_false_iff,
      List.nodup_nil, and_true, true_and]
    exact ⟨h, fun a ha hb => hk (by simpa [List.mem_singleton.mp hb] using ha)⟩

lemma mem_setKey_keys (m : List (String × String)) (k v k' : String) :
    k' ∈ (setKey m k v).map Prod.fst ↔ k' = k ∨ k' ∈ m.map Prod.fst := by
  rw [setKey_keys]
  by_cases h : k ∈ m.map Prod.fst
  · rw [if_pos h]
    constructor
    · exact Or.inr
    · rintro (rfl | hm)
      · exact h
      · exact hm
  · rw [if_neg h]
    simp [List.mem_append, or_comm]

lemma setKey_values (m : List (String × String)) (k v : String) (P : String → Prop)
    (hm : ∀ p ∈ m, P p.2) (hv : P v) : ∀ p ∈ setKey m k v, P p.2 := by
  unfold setKey
  by_cases h : m.any (fun p => p.1 == k) = true
  · rw [if_pos h]
    intro p hp
    obtain ⟨q, hq, hfq⟩ := List.mem_map.mp hp
    by_cases hqk : q.1 = k
    · simp only [hqk, beq_self_eq_true, if_pos] at hfq
      rw [← hfq]
      exact hv
    · simp only [hqk, beq_iff_eq, if_neg, if_false] at hfq
      rw [← hfq]
      exact hm q hq
  · rw [if_neg h]
    intro p hp
    rcases List.mem_append.mp hp with hp' | hp'
    · exact hm p hp'
    · rw [List.mem_singleton.mp hp']
      exact hv

lemma rand_idx_lt (colorsList : List String) (hcol : colorsList ≠ []) (q : ℚ)
    (_h0 : 0 ≤ q) (h1 : q < 1) :
    (⌊q * (colorsList.length : ℚ)⌋).toNat < colorsList.length := by
  have hlen : 0 < colorsList.length := List.length_pos.mpr hcol
  have hlt : ⌊q * (colorsList.length : ℚ)⌋ < (colorsList.length : ℤ) := by
    rw [Int.floor_lt]
    push_cast
    calc q * (colorsList.length : ℚ) < 1 * (colorsList.length : ℚ) := by
          exact mul_lt_mul_of_pos_right h1 (by exact_mod_cast hlen)
      _ = (colorsList.length : ℚ) := one_mul _
  omega

lemma getD_mem {l : List String} {n : Nat} (h : n < l.length) (d : String) :
    l.getD n d ∈ l := by
  rw [List.getD_eq_getElem l d h]
  exact List.getElem_mem h

lemma go_values (colorsList : List String) (rand : Nat → ℚ) (hcol : colorsList ≠ [])
    (hr : ∀ i, 0 ≤ rand i ∧ rand i < 1) :
    ∀ cs i result, (∀ p ∈ result, p.2 ∈ colorsList) →
      ∀ p ∈ randomClusterColorGo colorsList rand i cs result, p.2 ∈ colorsList := by
  intro cs
  induction cs with
  | nil =>
      intro i result h
      simpa [randomClusterColorGo] using h
  | cons c rest ih =>
      intro i result h
      simp only [randomClusterColorGo]
      apply ih
      apply setKey_values _ _ _ _ h
      exact getD_mem (rand_idx_lt colorsList hcol (rand i) (hr i).1 (hr i).2) ""

lemma go_keys (colorsList : List String) (rand : Nat → ℚ) :
    ∀ cs i result k,
      k ∈ (randomClusterColorGo colorsList rand i cs result).map Prod.fst ↔
        k ∈ result.map Prod.fst ∨ k ∈ cs := by
  intro cs
  induction cs with
  | nil =>
      intro i result k
      simp [randomClusterColorGo]
  | cons c rest ih =>
      intro i result k
      simp only [randomClusterColorGo]
      rw [ih, mem_setKey_keys]
      simp only [List.mem_cons]
      tauto

lemma go_nodup (colorsList : List String) (rand : Nat → ℚ) :
    ∀ cs i result, (result.map Prod.fst).Nodup →
      ((randomClusterColorGo colorsList rand i cs result).map Prod.fst).Nodup := by
  intro cs
  induction cs with
  | nil =>
      intro i result h
      simpa [randomClusterColorGo] using h
  | cons c rest ih =>
      intro i result h
      simp only [randomClusterColorGo]
      exact ih _ _ (setKey_nodup _ _ _ h)

/-- C10: for every list of cluster names and every non-empty list of colors,
`randomClusterColor(clustersList, colorsList)` returns a record with exactly one
entry per distinct cluster name of `clustersList` — its key set equals the set
of input cluster names and its keys are pairwise distinct — and every assigned
color value is an element of `colorsList`.  The `Math.random()` draws are
universally quantified over all streams of values in `[0, 1)`. -/
theorem randomClusterColor_spec (clustersList colorsList : List String)
    (rand : Nat → ℚ) (hcol : colorsList ≠ [])
    (hr : ∀ i, 0 ≤ rand i ∧ rand i < 1) :
    (∀ c, c ∈ (randomClusterColor clustersList colorsList rand).map Prod.fst ↔
        c ∈ clustersList)
    ∧ ((randomClusterColor clustersList colorsList rand).map Prod.fst).Nodup
    ∧ ∀ p ∈ randomClusterColor clustersList colorsList rand, p.2 ∈ colorsList := by
  refine ⟨fun c => ?_, ?_, ?_⟩
  · rw [randomClusterColor, go_keys]
    simp
  · exact go_nodup colorsList rand clustersList 0 [] (by simp)
  · exact go_values colorsList rand hcol hr clustersList 0 [] (by simp)

/-- Witness for C10 at a concrete input: three cluster names with one duplicate,
a two-colour palette and the constant draw 1/2. -/
theorem randomClusterColor_spec_witness :
    (∀ c, c ∈ (randomClusterColor ["bio", "space", "bio"] ["red", "green"]
        (fun _ => 1/2)).map Prod.fst ↔ c ∈ ["bio", "space", "bio"])
    ∧ ((randomClusterColor ["bio", "space", "bio"] ["red", "green"]
        (fun _ => 1/2)).map Prod.fst).Nodup
    ∧ ∀ p ∈ randomClusterColor ["bio", "space", "bio"] ["red", "green"]
        (fun _ => 1/2), p.2 ∈ ["red", "green"] :=
  randomClusterColor_spec ["bio", "space", "bio"] ["red", "green"] (fun _ => 1/2)
    (by simp) (fun i => by norm_num)

/-! ## Generic fold helpers -/

lemma foldl_rel {σ α : Type*} (R : σ → σ → Prop) (f : σ → α → σ)
    (hrefl : ∀ s, R s s) (htrans : ∀ a b c, R a b → R b c → R a c)
    (hstep : ∀ s a, R s (f s a)) :
    ∀ (l : List α) (s : σ), R s (l.foldl f s) := by
  intro l
  induction l with
  | nil => intro s; exact hrefl s
  | cons a t ih => intro s; exact htrans _ _ _ (hstep s a) (ih (f s a))

lemma foldl_inv {σ α : Type*} (I : σ → Prop) (f : σ → α → σ) (l : List α)
    (hstep : ∀ s, ∀ a ∈ l, I s → I (f s a)) :
    ∀ s, I s → I (l.foldl f s) := by
  induction l with
  | nil => intro s h; exact h
  | cons a t ih =>
      intro s h
      exact ih (fun s' b hb h' => hstep s' b (List.mem_cons_of_mem a hb) h') _
        (hstep s a (List.mem_cons_self a t) h)

lemma foldl_establish {σ α : Type*} (I : σ → Prop) (P : α → σ → Prop)
    (f : σ → α → σ) (l : List α)
    (hinv : ∀ s, ∀ a ∈ l, I s → I (f s a))
    (hstable : ∀ s a b, P a s → P a (f s b))
    (hest : ∀ s, ∀ a ∈ l, I s → P a (f s a)) :
    ∀ s, I s → ∀ a ∈ l, P a (l.foldl f s) := by
  induction l with
  | nil => intro s _ a ha; exact absurd ha (List.not_mem_nil a)
  | cons c t ih =>
      intro s hI a ha
      rcases List.mem_cons.mp ha with rfl | hat
      · exact foldl_inv (P a) f t (fun s' b _ h => hstable s' a b h) _
          (hest s a (List.mem_cons_self a t) hI)
      · exact ih (fun s' b hb h => hinv s' b (List.mem_cons_of_mem c hb) h)
          (fun s' b hb h => hest s' b (List.mem_cons_of_mem c hb) h)
          _ (hinv s c (List.mem_cons_self c t) hI) a hat

/-! ## The growth relation between build states -/

/-- How one build state evolves into a later one during the same build: the
registries only grow (by appending), the truncation flag never reverts, and a
full node budget freezes the visited list for good. -/
structure Extends (maxNodes : Nat) (s t : BuildState) : Prop where
  nodes_ext : ∃ ext, t.nodes = s.nodes ++ ext
  visited_ext : ∃ ext, t.visited = s.visited ++ ext
  edges_mono : ∀ e ∈ s.edges, e ∈ t.edges
  frozen : maxNodes ≤ s.visited.length → t.visited = s.visited
  trunc_mono : s.truncated = true → t.truncated = true

lemma Extends.rfl {maxNodes : Nat} (s : BuildState) : Extends maxNodes s s :=
  ⟨⟨[], (List.append_nil _).symm⟩, ⟨[], (List.append_nil _).symm⟩,
    fun _ he => he, fun _ => Eq.refl _, fun h => h⟩

lemma Extends.trans {maxNodes : Nat} {a b c : BuildState}
    (hab : Extends maxNodes a b) (hbc : Extends maxNodes b c) :
    Extends maxNodes a c := by
  refine ⟨?_, ?_, ?_, ?_, ?_⟩
  · obtain ⟨e1, h1⟩ := hab.nodes_ext
    obtain ⟨e2, h2⟩ := hbc.nodes_ext
    exact ⟨e1 ++ e2, by rw [h2, h1, List.append_assoc]⟩
  · obtain ⟨e1, h1⟩ := hab.visited_ext
    obtain ⟨e2, h2⟩ := hbc.visited_ext
    exact ⟨e1 ++ e2, by rw [h2, h1, List.append_assoc]⟩
  · exact fun e he => hbc.edges_mono e (hab.edges_mono e he)
  · intro h
    have h1 := hab.frozen h
    have h2 := hbc.frozen (by rw [h1]; exact h)
    rw [h2, h1]
  · exact fun h => hbc.trunc_mono (hab.trunc_mono h)

lemma Extends.nodes_mono {maxNodes : Nat} {s t : BuildState}
    (h : Extends maxNodes s t) : ∀ n ∈ s.nodes, n ∈ t.nodes := by
  obtain ⟨ext, hext⟩ := h.nodes_ext
  intro n hn
  rw [hext]
  exact List.mem_append_left _ hn

lemma Extends.visited_mono {maxNodes : Nat} {s t : BuildState}
    (h : Extends maxNodes s t) : ∀ v ∈ s.visited, v ∈ t.visited := by
  obtain ⟨ext, hext⟩ := h.visited_ext
  intro v hv
  rw [hext]
  exact List.mem_append_left _ hv

/-! ## Characterization of processRel -/

lemma mem_EdgeRegistry_add (directed : Bool) (edges : List EdgeRec)
    (a b lbl : String) (w : ℚ) (e : EdgeRec) (he : e ∈ edges) :
    e ∈ EdgeRegistry.add directed edges a b lbl w := by
  unfold EdgeRegistry.add
  by_cases h : edges.any (edgeKeyMatches directed a b) = true
  · rwa [if_pos h]
  · rw [if_neg h]
    exact List.mem_append_left _ he

lemma processRel_self {store : Store} {mode : Mode} {maxNodes d : Nat} {u : String}
    {acc : BuildState × List String} {r : Rel} (h1 : r.relatedId = u) :
    processRel store mode maxNodes d u acc r = acc := by
  simp only [processRel, if_pos h1]

lemma processRel_seen {store : Store} {mode : Mode} {maxNodes d : Nat} {u : String}
    {acc : BuildState × List String} {r : Rel} (h1 : ¬r.relatedId = u)
    (h2 : r.relatedId ∈ acc.1.visited) :
    processRel store mode maxNodes d u acc r =
      ({ acc.1 with edges := (EdgeRegistry.add mode.directed acc.1.edges
          (edgeEnds mode u r.relatedId).1 (edgeEnds mode u r.relatedId).2
          r.label r.weight) }, acc.2) := by
  simp only [processRel, if_neg h1, if_pos h2]

lemma processRel_admits {store : Store} {mode : Mode} {maxNodes d : Nat} {u : String}
    {acc : BuildState × List String} {r : Rel} (h1 : ¬r.relatedId = u)
    (h2 : r.relatedId ∉ acc.1.visited) (h3 : acc.1.visited.length < maxNodes) :
    processRel store mode maxNodes d u acc r =
      ({ visited := (acc.1.visited ++ [r.relatedId])
         nodes := (acc.1.nodes ++ [mkNodeRec store r.relatedId (d + 1)])
         edges := (EdgeRegistry.add mode.directed acc.1.edges
           (edgeEnds mode u r.relatedId).1 (edgeEnds mode u r.relatedId).2
           r.label r.weight)
         truncated := acc.1.truncated }, acc.2 ++ [r.relatedId]) := by
  simp only [processRel, if_neg h1, if_neg h2, if_pos h3]

lemma processRel_reject {store : Store} {mode : Mode} {maxNodes d : Nat} {u : String}
    {acc : BuildState × List String} {r : Rel} (h1 : ¬r.relatedId = u)
    (h2 : r.relatedId ∉ acc.1.visited) (h3 : ¬acc.1.visited.length < maxNodes) :
    processRel store mode maxNodes d u acc r =
      ({ acc.1 with
          edges := (EdgeRegistry.add mode.directed acc.1.edges
            (edgeEnds mode u r.relatedId).1 (edgeEnds mode u r.relatedId).2
            r.label r.weight)
          truncated := true }, acc.2) := by
  simp only [processRel, if_neg h1, if_neg h2, if_neg h3]

lemma processRel_extends (store : Store) (mode : Mode) (maxNodes d : Nat)
    (u : String) (acc : BuildState × List String) (r : Rel) :
    Extends maxNodes acc.1 (processRel store mode maxNodes d u acc r).1 := by
  by_cases h1 : r.relatedId = u
  · rw [processRel_self h1]
    exact Extends.rfl _
  · by_cases h2 : r.relatedId ∈ acc.1.visited
    · rw [processRel_seen h1 h2]
      exact ⟨⟨[], (List.append_nil _).symm⟩, ⟨[], (List.append_nil _).symm⟩,
        fun e he => mem_EdgeRegistry_add _ _ _ _ _ _ e he,
        fun _ => Eq.refl _, fun h => h⟩
    · by_cases h3 : acc.1.visited.length < maxNodes
      · rw [processRel_admits h1 h2 h3]
        exact ⟨⟨_, Eq.refl _⟩, ⟨_, Eq.refl _⟩,
          fun e he => mem_EdgeRegistry_add _ _ _ _ _ _ e he,
          fun hfull => absurd h3 (by omega), fun h => h⟩
      · rw [processRel_reject h1 h2 h3]
        exact ⟨⟨[], (List.append_nil _).symm⟩, ⟨[], (List.append_nil _).symm⟩,
          fun e he => mem_EdgeRegistry_add _ _ _ _ _ _ e he,
          fun _ => Eq.refl _, fun _ => Eq.refl _⟩

lemma expandNode_extends (store : Store) (mode : Mode) (maxNodes d : Nat)
    (acc : BuildState × List String) (u : String) :
    Extends maxNodes acc.1 (expandNode store mode maxNodes d acc u).1 := by
  unfold expandNode
  cases hfetch : store.fetch mode u with
  | none =>
      exact ⟨⟨[], (List.append_nil _).symm⟩, ⟨[], (List.append_nil _).symm⟩,
        fun _ he => he, fun _ => Eq.refl _, fun _ => Eq.refl _⟩
  | some rels =>
      have : ∀ a : BuildState × List String, ∀ r : Rel,
          Extends maxNodes a.1 (processRel store mode maxNodes d u a r).1 :=
        fun a r => processRel_extends store mode maxNodes d u a r
      exact foldl_rel (fun a b => Extends maxNodes a.1 b.1) _
        (fun s => Extends.rfl _) (fun a b c => Extends.trans)
        (fun s a => this s a) rels acc

lemma levelFold_extends (store : Store) (mode : Mode) (maxNodes d : Nat)
    (frontier : List String) (acc : BuildState × List String) :
    Extends maxNodes acc.1
      (frontier.foldl (expandNode store mode maxNodes d) acc).1 :=
  foldl_rel (fun a b => Extends maxNodes a.1 b.1) _
    (fun _ => Extends.rfl _) (fun _ _ _ => Extends.trans)
    (fun s a => expandNode_extends store mode maxNodes d s a) frontier acc

lemma bfsLoop_extends (store : Store) (mode : Mode) (maxNodes : Nat) :
    ∀ (fuel d : Nat) (frontier : List String) (st : BuildState),
      Extends maxNodes st (bfsLoop store mode maxNodes fuel d frontier st) := by
  intro fuel
  induction fuel with
  | zero => intro d frontier st; exact Extends.rfl _
  | succ n ih =>
      intro d frontier st
      rw [bfsLoop]
      by_cases h : frontier = []
      · rw [if_pos h]
        exact Extends.rfl _
      · rw [if_neg h]
        exact Extends.trans
          (levelFold_extends store mode maxNodes d frontier (st, []))
          (ih (d + 1) _ _)

/-! ## Small helper lemmas about the model's pieces -/

@[simp] lemma mkNodeRec_id (store : Store) (id : String) (depth : Nat) :
    (mkNodeRec store id depth).id = id := by
  unfold mkNodeRec
  cases store.getMeta id <;> rfl

@[simp] lemma mkNodeRec_depth (store : Store) (id : String) (depth : Nat) :
    (mkNodeRec store id depth).depth = depth := by
  unfold mkNodeRec
  cases store.getMeta id <;> rfl

lemma mem_nbrs_of {store : Store} {mode : Mode} {u : String} {rels : List Rel}
    {r : Rel} (hfetch : store.fetch mode u = some rels) (hr : r ∈ rels)
    (hne : r.relatedId ≠ u) : r.relatedId ∈ nbrs store mode u := by
  unfold nbrs
  rw [hfetch]
  refine List.mem_filter.mpr ⟨List.mem_map.mpr ⟨r, hr, Eq.refl _⟩, ?_⟩
  exact bne_iff_ne.mpr hne

lemma reachSet_le_succ (store : Store) (mode : Mode) (root : String) (d : Nat) :
    reachSet store mode root d ⊆ reachSet store mode root (d + 1) := by
  rw [reachSet]
  exact Finset.subset_union_left

lemma reachSet_mono (store : Store) (mode : Mode) (root : String) {d d' : Nat}
    (h : d ≤ d') : reachSet store mode root d ⊆ reachSet store mode root d' := by
  induction d' with
  | zero =>
      have : d = 0 := Nat.le_zero.mp h
      rw [this]
  | succ n ih =>
      rcases Nat.lt_or_ge d (n + 1) with hlt | hge
      · exact (ih (Nat.lt_succ_iff.mp hlt)).trans (reachSet_le_succ store mode root n)
      · have : d = n + 1 := Nat.le_antisymm h hge
        rw [this]

lemma mem_reachSet_succ {store : Store} {mode : Mode} {root u v : String} {d : Nat}
    (hu : u ∈ reachSet store mode root d) (hv : v ∈ nbrs store mode u) :
    v ∈ reachSet store mode root (d + 1) := by
  rw [reachSet]
  exact Finset.mem_union_right _
    (Finset.mem_biUnion.mpr ⟨u, hu, List.mem_toFinset.mpr hv⟩)

lemma root_mem_reachSet (store : Store) (mode : Mode) (root : String) (d : Nat) :
    root ∈ reachSet store mode root d :=
  reachSet_mono store mode root (Nat.zero_le d) (by rw [reachSet]; exact Finset.mem_singleton_self root)

/-- The edge-key test only looks at the key, and matching is symmetric in the
two records under exchange of role. -/
lemma edgeKeyMatches_symm (dir : Bool) (a b : String) (e : EdgeRec)
    (lbl lbl' : String) (w w' : ℚ) :
    edgeKeyMatches dir e.sourceId e.targetId ⟨a, b, lbl, w⟩ =
      edgeKeyMatches dir a b ⟨e.sourceId, e.targetId, lbl', w'⟩ := by
  cases dir
  · simp only [edgeKeyMatches, if_neg Bool.false_ne_true]
    apply Bool.eq_iff_iff.mpr
    simp only [Bool.or_eq_true, Bool.and_eq_true, beq_iff_eq]
    constructor <;> (rintro (⟨h1, h2⟩ | ⟨h1, h2⟩)) <;> simp [h1, h2]
  · simp only [edgeKeyMatches, if_true]
    apply Bool.eq_iff_iff.mpr
    simp only [Bool.and_eq_true, beq_iff_eq]
    constructor <;> (rintro ⟨h1, h2⟩) <;> simp [h1, h2]

lemma EdgeRegistry_add_pairwise (dir : Bool) (edges : List EdgeRec)
    (a b lbl : String) (w : ℚ)
    (h : List.Pairwise (fun e₁ e₂ =>
      edgeKeyMatches dir e₁.sourceId e₁.targetId e₂ = false) edges) :
    List.Pairwise (fun e₁ e₂ =>
      edgeKeyMatches dir e₁.sourceId e₁.targetId e₂ = false)
      (EdgeRegistry.add dir edges a b lbl w) := by
  unfold EdgeRegistry.add
  by_cases hany : edges.any (edgeKeyMatches dir a b) = true
  · rwa [if_pos hany]
  · rw [if_neg hany]
    rw [List.pairwise_append]
    refine ⟨h, List.pairwise_singleton _ _, ?_⟩
    intro e he e' he'
    rw [List.mem_singleton.mp he']
    have hnone : ∀ x ∈ edges, edgeKeyMatches dir a b x = false := by
      intro x hx
      by_contra hcon
      cases hxm : edgeKeyMatches dir a b x
      · exact hcon hxm
      · exact hany (List.any_eq_true.mpr ⟨x, hx, hxm⟩)
    calc edgeKeyMatches dir e.sourceId e.targetId ⟨a, b, lbl, w⟩
        = edgeKeyMatches dir a b ⟨e.sourceId, e.targetId, e.label, e.weight⟩ :=
          edgeKeyMatches_symm dir a b e lbl e.label w e.weight
      _ = edgeKeyMatches dir a b e := by
          congr 1
      _ = false := hnone e he

/-! ## The build invariants -/

/-- An edge record is sound when it stems from an actual relation of the
backing store: some admitted paper `u` was fetched, the triple `r` appeared in
the result, it was not a self-relation, and the edge's endpoints, label and
weight are exactly the ones the triple induces. -/
def EdgeSound (store : Store) (mode : Mode) (vis : List String) (e : EdgeRec) : Prop :=
  ∃ u rels r, store.fetch mode u = some rels ∧ r ∈ rels ∧ r.relatedId ≠ u ∧
    (e.sourceId, e.targetId) = edgeEnds mode u r.relatedId ∧
    e.label = r.label ∧ e.weight = r.weight ∧ u ∈ vis

lemma EdgeSound.monoVis {store : Store} {mode : Mode} {vis vis' : List String}
    {e : EdgeRec} (h : EdgeSound store mode vis e)
    (hv : ∀ x ∈ vis, x ∈ vis') : EdgeSound store mode vis' e := by
  obtain ⟨u, rels, r, h1, h2, h3, h4, h5, h6, h7⟩ := h
  exact ⟨u, rels, r, h1, h2, h3, h4, h5, h6, hv u h7⟩

lemma edgeSound_add {store : Store} {mode : Mode} {vis : List String}
    {edges : List EdgeRec} {u : String} {rels : List Rel} {r : Rel}
    (hsound : ∀ e ∈ edges, EdgeSound store mode vis e)
    (hfetch : store.fetch mode u = some rels) (hrin : r ∈ rels)
    (hne : r.relatedId ≠ u) (hu_vis : u ∈ vis) :
    ∀ e ∈ EdgeRegistry.add mode.directed edges (edgeEnds mode u r.relatedId).1
        (edgeEnds mode u r.relatedId).2 r.label r.weight,
      EdgeSound store mode vis e := by
  intro e he
  unfold EdgeRegistry.add at he
  by_cases hany : edges.any (edgeKeyMatches mode.directed
      (edgeEnds mode u r.relatedId).1 (edgeEnds mode u r.relatedId).2) = true
  · rw [if_pos hany] at he
    exact hsound e he
  · rw [if_neg hany] at he
    rcases List.mem_append.mp he with he' | he'
    · exact hsound e he'
    · rw [List.mem_singleton.mp he']
      exact ⟨u, rels, r, hfetch, hrin, hne, Prod.mk.eta, Eq.refl _, Eq.refl _, hu_vis⟩

/-- Well-formedness of a build state, independent of the BFS level: the visited
list mirrors the node registry, ids are unique, the budget is respected, the
root is the unique depth-0 node, every non-root node was discovered from a node
one level shallower via an actual fetched relation, every node is genuinely
reachable at its depth, and the edge registry is deduplicated and sound. -/
structure WF (store : Store) (mode : Mode) (maxNodes : Nat) (root : String)
    (st : BuildState) : Prop where
  visEq : st.visited = st.nodes.map NodeRec.id
  visNodup : st.visited.Nodup
  budget : st.visited.length ≤ maxNodes
  root0 : ∃ n ∈ st.nodes, n.id = root ∧ n.depth = 0
  zeroRoot : ∀ n ∈ st.nodes, n.depth = 0 → n.id = root
  parent : ∀ n ∈ st.nodes, 0 < n.depth →
    ∃ m ∈ st.nodes, m.depth + 1 = n.depth ∧
      ∃ rels, store.fetch mode m.id = some rels ∧ ∃ r ∈ rels, r.relatedId = n.id
  inReach : ∀ n ∈ st.nodes, n.id ∈ reachSet store mode root n.depth
  edgesPW : List.Pairwise (fun e₁ e₂ =>
    edgeKeyMatches mode.directed e₁.sourceId e₁.targetId e₂ = false) st.edges
  edgesSound : ∀ e ∈ st.edges, EdgeSound store mode st.visited e

/-- The fate of a neighbour id discovered while expanding a node: either it is
registered at a depth no greater than `bound`, or the budget was full and the
id is permanently excluded from the visited list. -/
def Outcome (maxNodes : Nat) (st : BuildState) (bound : Nat) (id : String) : Prop :=
  (∃ k ∈ st.nodes, k.id = id ∧ k.depth ≤ bound) ∨
    (maxNodes ≤ st.visited.length ∧ id ∉ st.visited)

lemma outcome_mono_extends {maxNodes : Nat} {st st' : BuildState} {bound : Nat}
    {id : String} (h : Outcome maxNodes st bound id)
    (hx : Extends maxNodes st st') : Outcome maxNodes st' bound id := by
  rcases h with ⟨k, hk, hid, hd⟩ | ⟨hfull, hnot⟩
  · exact Or.inl ⟨k, hx.nodes_mono k hk, hid, hd⟩
  · have hfr := hx.frozen hfull
    exact Or.inr ⟨by rw [hfr]; exact hfull, by rw [hfr]; exact hnot⟩

/-- The invariant holding between BFS levels: at the start of level `d`, the
state is well-formed, every node is at depth at most `d`, the frontier is
exactly the depth-`d` slice of the registry, every node already expanded had
each of its fetched neighbours either registered at the next level or
budget-rejected for good, and every expanded node whose fetch failed raised the
truncation flag. -/
structure LevelInv (store : Store) (mode : Mode) (maxNodes : Nat) (root : String)
    (d : Nat) (st : BuildState) (frontier : List String) : Prop where
  wf : WF store mode maxNodes root st
  depthLe : ∀ n ∈ st.nodes, n.depth ≤ d
  frontierEq : frontier = (st.nodes.filter (fun n => n.depth == d)).map NodeRec.id
  outcome : ∀ m ∈ st.nodes, m.depth < d → ∀ rels,
    store.fetch mode m.id = some rels →
    ∀ r ∈ rels, r.relatedId ≠ m.id → Outcome maxNodes st (m.depth + 1) r.relatedId
  failFlag : ∀ n ∈ st.nodes, n.depth < d →
    store.fetch mode n.id = none → st.truncated = true

/-- The invariant holding while the frontier of level `d` is being processed:
`st₀` is the state at the start of the level and `acc` the accumulator of the
fold (current state and the queue of freshly admitted ids). -/
structure MidInv (store : Store) (mode : Mode) (maxNodes : Nat) (root : String)
    (d : Nat) (st₀ : BuildState) (acc : BuildState × List String) : Prop where
  wf : WF store mode maxNodes root acc.1
  depthLe : ∀ n ∈ acc.1.nodes, n.depth ≤ d + 1
  queuedEq : acc.2 = (acc.1.nodes.filter (fun n => n.depth == d + 1)).map NodeRec.id
  newDepth : ∀ n ∈ acc.1.nodes, n ∈ st₀.nodes ∨ n.depth = d + 1
  ext : Extends maxNodes st₀ acc.1
  outcome : ∀ m ∈ acc.1.nodes, m.depth < d → ∀ rels,
    store.fetch mode m.id = some rels →
    ∀ r ∈ rels, r.relatedId ≠ m.id → Outcome maxNodes acc.1 (m.depth + 1) r.relatedId
  failFlag : ∀ n ∈ acc.1.nodes, n.depth < d →
    store.fetch mode n.id = none → acc.1.truncated = true

lemma WF.mem_visited_of_node {store : Store} {mode : Mode} {maxNodes : Nat}
    {root : String} {st : BuildState} (hwf : WF store mode maxNodes root st)
    {n : NodeRec} (hn : n ∈ st.nodes) : n.id ∈ st.visited := by
  rw [hwf.visEq]
  exact List.mem_map_of_mem NodeRec.id hn

lemma processRel_midInv {store : Store} {mode : Mode} {maxNodes : Nat}
    {root : String} {d : Nat} {st₀ : BuildState} {u : String}
    {acc : BuildState × List String} {rels : List Rel} {r : Rel}
    (hmid : MidInv store mode maxNodes root d st₀ acc)
    (hum : ∃ m ∈ st₀.nodes, m.id = u ∧ m.depth = d)
    (hfetch : store.fetch mode u = some rels) (hrin : r ∈ rels) :
    MidInv store mode maxNodes root d st₀ (processRel store mode maxNodes d u acc r) := by
  have hwf := hmid.wf
  obtain ⟨m₀, hm₀, hm₀id, hm₀d⟩ := hum
  have hm₀' : m₀ ∈ acc.1.nodes := hmid.ext.nodes_mono m₀ hm₀
  have hu_vis : u ∈ acc.1.visited := by
    rw [← hm₀id]
    exact hwf.mem_visited_of_node hm₀'
  have hu_reach : u ∈ reachSet store mode root d := by
    rw [← hm₀id, ← hm₀d]
    exact hwf.inReach m₀ hm₀'
  have hext := processRel_extends store mode maxNodes d u acc r
  by_cases h1 : r.relatedId = u
  · rw [processRel_self h1]
    exact hmid
  · by_cases h2 : r.relatedId ∈ acc.1.visited
    · rw [processRel_seen h1 h2]
      rw [processRel_seen h1 h2] at hext
      refine ⟨⟨hwf.visEq, hwf.visNodup, hwf.budget, hwf.root0, hwf.zeroRoot,
        hwf.parent, hwf.inReach, ?_, ?_⟩, hmid.depthLe, hmid.queuedEq, hmid.newDepth,
        hmid.ext.trans hext, ?_, hmid.failFlag⟩
      · exact EdgeRegistry_add_pairwise _ _ _ _ _ _ hwf.edgesPW
      · exact edgeSound_add hwf.edgesSound hfetch hrin h1 hu_vis
      · intro m hm hmd rels' hfetch' r' hr' hne'
        exact outcome_mono_extends (hmid.outcome m hm hmd rels' hfetch' r' hr' hne') hext
    · by_cases h3 : acc.1.visited.length < maxNodes
      · rw [processRel_admits h1 h2 h3]
        rw [processRel_admits h1 h2 h3] at hext
        refine ⟨⟨?_, ?_, ?_, ?_, ?_, ?_, ?_, ?_, ?_⟩, ?_, ?_, ?_, hmid.ext.trans hext,
          ?_, ?_⟩
        · show acc.1.visited ++ [r.relatedId] =
            (acc.1.nodes ++ [mkNodeRec store r.relatedId (d + 1)]).map NodeRec.id
          rw [List.map_append, ← hwf.visEq]
          simp
        · show (acc.1.visited ++ [r.relatedId]).Nodup
          rw [List.nodup_append]
          refine ⟨hwf.visNodup, List.nodup_singleton _, ?_⟩
          intro a ha hb
          rw [List.mem_singleton.mp hb] at ha
          exact h2 ha
        · show (acc.1.visited ++ [r.relatedId]).length ≤ maxNodes
          rw [List.length_append]
          simpa using h3
        · obtain ⟨n, hn, hnid, hnd⟩ := hwf.root0
          exact ⟨n, List.mem_append_left _ hn, hnid, hnd⟩
        · intro n hn h0
          rcases List.mem_append.mp hn with hn' | hn'
          · exact hwf.zeroRoot n hn' h0
          · rw [List.mem_singleton.mp hn'] at h0
            rw [mkNodeRec_depth] at h0
            exact absurd h0 (by omega)
        · intro n hn hpos
          rcases List.mem_append.mp hn with hn' | hn'
          · obtain ⟨m, hm, hmd, hrest⟩ := hwf.parent n hn' hpos
            exact ⟨m, List.mem_append_left _ hm, hmd, hrest⟩
          · rw [List.mem_singleton.mp hn']
            refine ⟨m₀, List.mem_append_left _ hm₀', by
              rw [mkNodeRec_depth, hm₀d], rels, by rw [hm₀id]; exact hfetch,
              r, hrin, by rw [mkNodeRec_id]⟩
        · intro n hn
          rcases List.mem_append.mp hn with hn' | hn'
          · exact hwf.inReach n hn'
          · rw [List.mem_singleton.mp hn']
            rw [mkNodeRec_id, mkNodeRec_depth]
            exact mem_reachSet_succ hu_reach (mem_nbrs_of hfetch hrin h1)
        · exact EdgeRegistry_add_pairwise _ _ _ _ _ _ hwf.edgesPW
        · show ∀ e ∈ EdgeRegistry.add mode.directed acc.1.edges
              (edgeEnds mode u r.relatedId).1 (edgeEnds mode u r.relatedId).2
              r.label r.weight,
            EdgeSound store mode (acc.1.visited ++ [r.relatedId]) e
          have := edgeSound_add hwf.edgesSound hfetch hrin h1 hu_vis
          intro e he
          exact (this e he).monoVis (fun x hx => List.mem_append_left _ hx)
        · intro n hn
          rcases List.mem_append.mp hn with hn' | hn'
          · exact hmid.depthLe n hn'
          · rw [List.mem_singleton.mp hn', mkNodeRec_depth]
        · show acc.2 ++ [r.relatedId] =
            ((acc.1.nodes ++ [mkNodeRec store r.relatedId (d + 1)]).filter
              (fun n => n.depth == d + 1)).map NodeRec.id
          rw [List.filter_append, List.map_append, ← hmid.queuedEq]
          simp
        · intro n hn
          rcases List.mem_append.mp hn with hn' | hn'
          · rcases hmid.newDepth n hn' with h | h
            · exact Or.inl h
            · exact Or.inr h
          · rw [List.mem_singleton.mp hn']
            exact Or.inr (mkNodeRec_depth store r.relatedId (d + 1))
        · intro m hm hmd rels' hfetch' r' hr' hne'
          rcases List.mem_append.mp hm with hm' | hm'
          · exact outcome_mono_extends (hmid.outcome m hm' hmd rels' hfetch' r' hr' hne') hext
          · rw [List.mem_singleton.mp hm'] at hmd
            rw [mkNodeRec_depth] at hmd
            exact absurd hmd (by omega)
        · intro n hn hnd hfail
          rcases List.mem_append.mp hn with hn' | hn'
          · exact hmid.failFlag n hn' hnd hfail
          · rw [List.mem_singleton.mp hn'] at hnd
            rw [mkNodeRec_depth] at hnd
            exact absurd hnd (by omega)
      · rw [processRel_reject h1 h2 h3]
        rw [processRel_reject h1 h2 h3] at hext
        refine ⟨⟨hwf.visEq, hwf.visNodup, hwf.budget, hwf.root0, hwf.zeroRoot,
          hwf.parent, hwf.inReach, ?_, ?_⟩, hmid.depthLe, hmid.queuedEq,
          hmid.newDepth, hmid.ext.trans hext, ?_, ?_⟩
        · exact EdgeRegistry_add_pairwise _ _ _ _ _ _ hwf.edgesPW
        · exact edgeSound_add hwf.edgesSound hfetch hrin h1 hu_vis
        · intro m hm hmd rels' hfetch' r' hr' hne'
          exact outcome_mono_extends (hmid.outcome m hm hmd rels' hfetch' r' hr' hne') hext
        · intro n _ _ _
          rfl

lemma expandNode_midInv {store : Store} {mode : Mode} {maxNodes : Nat}
    {root : String} {d : Nat} {st₀ : BuildState} {u : String}
    {acc : BuildState × List String}
    (hmid : MidInv store mode maxNodes root d st₀ acc)
    (hum : ∃ m ∈ st₀.nodes, m.id = u ∧ m.depth = d) :
    MidInv store mode maxNodes root d st₀ (expandNode store mode maxNodes d acc u) := by
  unfold expandNode
  cases hfetch : store.fetch mode u with
  | none =>
      have hwf := hmid.wf
      refine ⟨⟨hwf.visEq, hwf.visNodup, hwf.budget, hwf.root0, hwf.zeroRoot,
        hwf.parent, hwf.inReach, hwf.edgesPW, hwf.edgesSound⟩, hmid.depthLe,
        hmid.queuedEq, hmid.newDepth, ?_, hmid.outcome, ?_⟩
      · refine hmid.ext.trans ⟨⟨[], (List.append_nil _).symm⟩,
          ⟨[], (List.append_nil _).symm⟩, fun _ he => he, fun _ => Eq.refl _,
          fun _ => Eq.refl _⟩
      · intro n _ _ _
        rfl
  | some rels =>
      exact foldl_inv (MidInv store mode maxNodes root d st₀)
        (processRel store mode maxNodes d u) rels
        (fun s a ha h => processRel_midInv h hum hfetch ha) acc hmid

/-- The facts guaranteed for a node `u` that has been expanded at level `d`:
a failed fetch left the truncation flag raised, and every non-self neighbour of
a successful fetch was either registered at depth at most `d + 1` or
budget-rejected for good. -/
def ExpandedFact (store : Store) (mode : Mode) (maxNodes d : Nat) (u : String)
    (acc : BuildState × List String) : Prop :=
  (store.fetch mode u = none → acc.1.truncated = true) ∧
  (∀ rels, store.fetch mode u = some rels → ∀ r ∈ rels, r.relatedId ≠ u →
    Outcome maxNodes acc.1 (d + 1) r.relatedId)

lemma expandedFact_mono_extends {store : Store} {mode : Mode} {maxNodes d : Nat}
    {u : String} {acc acc' : BuildState × List String}
    (h : ExpandedFact store mode maxNodes d u acc)
    (hx : Extends maxNodes acc.1 acc'.1) :
    ExpandedFact store mode maxNodes d u acc' :=
  ⟨fun hn => hx.trunc_mono (h.1 hn),
   fun rels hf r hr hne => outcome_mono_extends (h.2 rels hf r hr hne) hx⟩

lemma processRel_outcome {store : Store} {mode : Mode} {maxNodes : Nat}
    {root : String} {d : Nat} {st₀ : BuildState} {u : String}
    {acc : BuildState × List String} {r : Rel}
    (hmid : MidInv store mode maxNodes root d st₀ acc) (hne : r.relatedId ≠ u) :
    Outcome maxNodes (processRel store mode maxNodes d u acc r).1 (d + 1)
      r.relatedId := by
  have hwf := hmid.wf
  by_cases h2 : r.relatedId ∈ acc.1.visited
  · rw [processRel_seen hne h2]
    have h2' := h2
    rw [hwf.visEq] at h2'
    obtain ⟨k, hk, hkid⟩ := List.mem_map.mp h2'
    exact Or.inl ⟨k, hk, hkid, hmid.depthLe k hk⟩
  · by_cases h3 : acc.1.visited.length < maxNodes
    · rw [processRel_admits hne h2 h3]
      exact Or.inl ⟨mkNodeRec store r.relatedId (d + 1),
        List.mem_append_right _ (List.mem_singleton_self _),
        mkNodeRec_id store r.relatedId (d + 1),
        le_of_eq (mkNodeRec_depth store r.relatedId (d + 1))⟩
    · rw [processRel_reject hne h2 h3]
      exact Or.inr ⟨Nat.le_of_not_lt h3, h2⟩

lemma expandNode_expandedFact {store : Store} {mode : Mode} {maxNodes : Nat}
    {root : String} {d : Nat} {st₀ : BuildState} {u : String}
    {acc : BuildState × List String}
    (hmid : MidInv store mode maxNodes root d st₀ acc)
    (hum : ∃ m ∈ st₀.nodes, m.id = u ∧ m.depth = d) :
    ExpandedFact store mode maxNodes d u (expandNode store mode maxNodes d acc u) := by
  unfold expandNode
  cases hfetch : store.fetch mode u with
  | none =>
      refine ⟨fun _ => rfl, fun rels hf => ?_⟩
      rw [hfetch] at hf
      cases hf
  | some rels =>
      refine ⟨?_, fun rels' hf r hr hne => ?_⟩
      · intro hn
        rw [hfetch] at hn
        cases hn
      rw [hfetch] at hf
      cases hf
      have := foldl_establish (MidInv store mode maxNodes root d st₀)
        (fun r' acc' => r'.relatedId ≠ u →
          Outcome maxNodes acc'.1 (d + 1) r'.relatedId)
        (processRel store mode maxNodes d u) rels
        (fun s a ha h => processRel_midInv h hum hfetch ha)
        (fun s a b h => by
          intro hne'
          exact outcome_mono_extends (h hne') (processRel_extends store mode maxNodes d u s b))
        (fun s a _ h => by
          intro hne'
          exact processRel_outcome h hne')
        acc hmid r hr
      exact this hne

lemma frontier_node {store : Store} {mode : Mode} {maxNodes : Nat} {root : String}
    {d : Nat} {st : BuildState} {frontier : List String}
    (hLI : LevelInv store mode maxNodes root d st frontier) :
    ∀ u ∈ frontier, ∃ m ∈ st.nodes, m.id = u ∧ m.depth = d := by
  intro u hu
  rw [hLI.frontierEq] at hu
  obtain ⟨m, hm, hmid⟩ := List.mem_map.mp hu
  have hmf := List.mem_filter.mp hm
  exact ⟨m, hmf.1, hmid, by simpa using hmf.2⟩

lemma frontier_facts {store : Store} {mode : Mode} {maxNodes : Nat} {root : String}
    {d : Nat} {st : BuildState} {frontier : List String}
    (hLI : LevelInv store mode maxNodes root d st frontier) :
    ∀ u ∈ frontier, u ∈ st.visited ∧ u ∈ reachSet store mode root d := by
  intro u hu
  obtain ⟨m, hm, hmid, hmd⟩ := frontier_node hLI u hu
  constructor
  · rw [← hmid]
    exact hLI.wf.mem_visited_of_node hm
  · rw [← hmid, ← hmd]
    exact hLI.wf.inReach m hm

lemma levelStart_midInv {store : Store} {mode : Mode} {maxNodes : Nat}
    {root : String} {d : Nat} {st : BuildState} {frontier : List String}
    (hLI : LevelInv store mode maxNodes root d st frontier) :
    MidInv store mode maxNodes root d st (st, []) := by
  refine ⟨hLI.wf, ?_, ?_, fun n hn => Or.inl hn, Extends.rfl st,
    hLI.outcome, hLI.failFlag⟩
  · intro n hn
    exact Nat.le_succ_of_le (hLI.depthLe n hn)
  · show ([] : List String) =
      (st.nodes.filter (fun n => n.depth == d + 1)).map NodeRec.id
    have hfil : st.nodes.filter (fun n => n.depth == d + 1) = [] := by
      rw [List.filter_eq_nil_iff]
      intro n hn
      have := hLI.depthLe n hn
      simp only [beq_iff_eq]
      omega
    rw [hfil]
    rfl

lemma level_levelInv {store : Store} {mode : Mode} {maxNodes : Nat} {root : String}
    {d : Nat} {st : BuildState} {frontier : List String}
    (hLI : LevelInv store mode maxNodes root d st frontier) :
    LevelInv store mode maxNodes root (d + 1)
      (frontier.foldl (expandNode store mode maxNodes d) (st, [])).1
      (frontier.foldl (expandNode store mode maxNodes d) (st, [])).2 := by
  have hmem := frontier_node hLI
  have hmid₀ := levelStart_midInv hLI
  have hmidF := foldl_inv (MidInv store mode maxNodes root d st)
    (expandNode store mode maxNodes d) frontier
    (fun s a ha h => expandNode_midInv h (hmem a ha)) _ hmid₀
  have hfact := foldl_establish (MidInv store mode maxNodes root d st)
    (fun u acc => ExpandedFact store mode maxNodes d u acc)
    (expandNode store mode maxNodes d) frontier
    (fun s a ha h => expandNode_midInv h (hmem a ha))
    (fun s a b h => expandedFact_mono_extends h (expandNode_extends store mode maxNodes d s b))
    (fun s a ha h => expandNode_expandedFact h (hmem a ha))
    (st, []) hmid₀
  refine ⟨hmidF.wf, hmidF.depthLe, hmidF.queuedEq, ?_, ?_⟩
  · intro m hm hmd rels hfetch r hr hne
    rcases Nat.lt_succ_iff_lt_or_eq.mp hmd with hlt | heq
    · exact hmidF.outcome m hm hlt rels hfetch r hr hne
    · rcases hmidF.newDepth m hm with hold | hnew
      · have hufr : m.id ∈ frontier := by
          rw [hLI.frontierEq]
          exact List.mem_map_of_mem _ (List.mem_filter.mpr ⟨hold, by simp [heq]⟩)
        have := (hfact m.id hufr).2 rels hfetch r hr hne
        rw [heq]
        exact this
      · rw [hnew] at heq
        exact absurd heq (by omega)
  · intro n hn hnd hfail
    rcases Nat.lt_succ_iff_lt_or_eq.mp hnd with hlt | heq
    · exact hmidF.failFlag n hn hlt hfail
    · rcases hmidF.newDepth n hn with hold | hnew
      · have hufr : n.id ∈ frontier := by
          rw [hLI.frontierEq]
          exact List.mem_map_of_mem _ (List.mem_filter.mpr ⟨hold, by simp [heq]⟩)
        exact (hfact n.id hufr).1 hfail
      · rw [hnew] at heq
        exact absurd heq (by omega)

lemma bfsLoop_levelInv {store : Store} {mode : Mode} {maxNodes : Nat}
    {root : String} {maxDepth : Nat} :
    ∀ (fuel d : Nat) (frontier : List String) (st : BuildState),
      LevelInv store mode maxNodes root d st frontier → d + fuel = maxDepth →
      ∃ D F, D ≤ maxDepth ∧ (D = maxDepth ∨ F = []) ∧
        LevelInv store mode maxNodes root D
          (bfsLoop store mode maxNodes fuel d frontier st) F := by
  intro fuel
  induction fuel with
  | zero =>
      intro d frontier st hLI hdf
      rw [bfsLoop]
      exact ⟨d, frontier, by omega, Or.inl (by omega), hLI⟩
  | succ n ih =>
      intro d frontier st hLI hdf
      rw [bfsLoop]
      by_cases hfr : frontier = []
      · rw [if_pos hfr]
        exact ⟨d, [], by omega, Or.inr (Eq.refl _), hfr ▸ hLI⟩
      · rw [if_neg hfr]
        exact ih (d + 1) _ _ (level_levelInv hLI) (by omega)

/-! ## From the build function to the invariants -/

lemma init_levelInv (store : Store) (mode : Mode) (maxNodes : Nat) (root : String)
    (m : PaperMeta) (hmax : 1 ≤ maxNodes) :
    LevelInv store mode maxNodes root 0
      ⟨[root], [⟨root, m.title, m.cluster, 0⟩], [], false⟩ [root] := by
  refine ⟨⟨?_, ?_, ?_, ?_, ?_, ?_, ?_, ?_, ?_⟩, ?_, ?_, ?_, ?_⟩
  · rfl
  · exact List.nodup_singleton root
  · simpa using hmax
  · exact ⟨⟨root, m.title, m.cluster, 0⟩, List.mem_singleton_self _, Eq.refl _, Eq.refl _⟩
  · intro n hn _
    rw [List.mem_singleton.mp hn]
  · intro n hn hpos
    rw [List.mem_singleton.mp hn] at hpos
    exact absurd hpos (by simp)
  · intro n hn
    rw [List.mem_singleton.mp hn]
    exact root_mem_reachSet store mode root 0
  · exact List.Pairwise.nil
  · intro e he
    exact absurd he (List.not_mem_nil e)
  · intro n hn
    rw [List.mem_singleton.mp hn]
  · rfl
  · intro mm hmm hmd
    exact absurd hmd (by omega)
  · intro n hn hnd
    exact absurd hnd (by omega)

lemma build_eq_ok {store : Store} {req : GraphRequest} {m : PaperMeta}
    (hm : store.getMeta req.rootId = some m) :
    build store req = .ok (assemble req
      (bfsLoop store req.mode req.maxNodes req.maxDepth 0 [req.rootId]
        ⟨[req.rootId], [⟨req.rootId, m.title, m.cluster, 0⟩], [], false⟩)) := by
  unfold build
  rw [hm]

lemma build_ok_shape {store : Store} {req : GraphRequest} {res : GraphResult}
    (hres : build store req = .ok res) :
    ∃ stF, res = assemble req stF := by
  cases hm : store.getMeta req.rootId with
  | none =>
      unfold build at hres
      rw [hm] at hres
      cases hres
  | some m =>
      rw [build_eq_ok hm] at hres
      injection hres with h
      exact ⟨_, h.symm⟩

lemma build_ok_elim {store : Store} {req : GraphRequest} {res : GraphResult}
    (hmax : 1 ≤ req.maxNodes) (hres : build store req = .ok res) :
    ∃ stF D F, res = assemble req stF ∧ D ≤ req.maxDepth ∧
      (D = req.maxDepth ∨ F = []) ∧
      LevelInv store req.mode req.maxNodes req.rootId D stF F := by
  cases hm : store.getMeta req.rootId with
  | none =>
      unfold build at hres
      rw [hm] at hres
      cases hres
  | some m =>
      rw [build_eq_ok hm] at hres
      injection hres with h
      obtain ⟨D, F, hD, hDF, hLI⟩ :=
        @bfsLoop_levelInv store req.mode req.maxNodes req.rootId req.maxDepth
          req.maxDepth 0 [req.rootId] _
          (init_levelInv store req.mode req.maxNodes req.rootId m hmax) (by omega)
      exact ⟨_, D, F, h.symm, hD, hDF, hLI⟩

lemma assemble_nodes_map (req : GraphRequest) (st : BuildState) :
    (assemble req st).nodes = st.nodes.map (fun n =>
      ⟨n.id, n.label, n.cluster, colorFor n.cluster, degree (keptEdges st) n.id,
        n.depth⟩) := rfl

lemma assemble_edges_map (req : GraphRequest) (st : BuildState) :
    (assemble req st).edges = (keptEdges st).map
      (fun e => ⟨e.sourceId, e.targetId, e.label, e.weight, edgeColor⟩) := rfl

lemma assemble_truncated (req : GraphRequest) (st : BuildState) :
    (assemble req st).truncated = st.truncated := rfl

lemma assemble_ids (req : GraphRequest) (st : BuildState) :
    (assemble req st).nodes.map GraphNode.id = st.nodes.map NodeRec.id := by
  rw [assemble_nodes_map, List.map_map]
  rfl

lemma no_depth_at_empty_frontier {store : Store} {mode : Mode} {maxNodes : Nat}
    {root : String} {D : Nat} {st : BuildState}
    (hLI : LevelInv store mode maxNodes root D st []) :
    ∀ n ∈ st.nodes, n.depth ≠ D := by
  intro n hn
  have h := hLI.frontierEq
  have hfil : st.nodes.filter (fun n => n.depth == D) = [] :=
    List.map_eq_nil_iff.mp h.symm
  intro hd
  have : n ∈ st.nodes.filter (fun n => n.depth == D) :=
    List.mem_filter.mpr ⟨hn, by simp [hd]⟩
  rw [hfil] at this
  exact absurd this (List.not_mem_nil n)

lemma node_depth_lt {store : Store} {mode : Mode} {maxNodes maxDepth : Nat}
    {root : String} {D : Nat} {F : List String} {st : BuildState}
    (hLI : LevelInv store mode maxNodes root D st F) (hD : D ≤ maxDepth)
    (hDF : D = maxDepth ∨ F = []) :
    ∀ n ∈ st.nodes, n.depth < maxDepth → n.depth < D := by
  intro n hn hnd
  rcases hDF with rfl | hF
  · exact hnd
  · have h1 := hLI.depthLe n hn
    have h2 := no_depth_at_empty_frontier (hF ▸ hLI) n hn
    omega

/-! ## Claim C5: RootNotFound -/

/-- C5: the build returns the `RootNotFound` error exactly when the root id
cannot be resolved through `PaperMetadataProvider`; in that case the error is
produced immediately and no `GraphResult` (not even one representing a
fragment of a graph) is returned. -/
theorem build_rootNotFound_iff (store : Store) (req : GraphRequest) :
    build store req = .error .RootNotFound ↔ store.getMeta req.rootId = none := by
  cases hm : store.getMeta req.rootId with
  | none =>
      constructor
      · intro _
        rfl
      · intro _
        unfold build
        rw [hm]
  | some m =>
      rw [build_eq_ok hm]
      constructor
      · intro h
        cases h
      · intro h
        cases h

/-! ## Claim C3: determinism and per-cluster colours -/

lemma colorFor_mem_palette (cluster : String) : colorFor cluster ∈ palette := by
  unfold colorFor
  refine getD_mem ?_ _
  refine Nat.mod_lt _ ?_
  decide

/-- C3: the build is a deterministic function of the request and the backing
store — a second run with identical inputs yields the identical `GraphResult`
— and the cluster-to-colour assignment is a deterministic function of the
cluster name alone, drawn from the fixed palette, so equal clusters receive
equal colours within one result and across results. -/
theorem build_deterministic (store : Store) (req : GraphRequest) (res : GraphResult)
    (hres : build store req = .ok res) :
    (∀ res₂, build store req = .ok res₂ → res₂ = res) ∧
    (∀ n ∈ res.nodes, n.color = colorFor n.cluster ∧ n.color ∈ palette) ∧
    (∀ n₁ ∈ res.nodes, ∀ n₂ ∈ res.nodes, n₁.cluster = n₂.cluster →
      n₁.color = n₂.color) ∧
    (∀ req₂ res₂, build store req₂ = .ok res₂ →
      ∀ n₁ ∈ res.nodes, ∀ n₂ ∈ res₂.nodes, n₁.cluster = n₂.cluster →
        n₁.color = n₂.color) := by
  have key : ∀ (req' : GraphRequest) (res' : GraphResult),
      build store req' = .ok res' →
      ∀ n ∈ res'.nodes, n.color = colorFor n.cluster := by
    intro req' res' hres' n hn
    obtain ⟨st', rfl⟩ := build_ok_shape hres'
    rw [assemble_nodes_map] at hn
    obtain ⟨n₀, _, hfn⟩ := List.mem_map.mp hn
    rw [← hfn]
  refine ⟨?_, ?_, ?_, ?_⟩
  · intro res₂ h₂
    rw [hres] at h₂
    injection h₂ with h
    exact h.symm
  · intro n hn
    refine ⟨key req res hres n hn, ?_⟩
    rw [key req res hres n hn]
    exact colorFor_mem_palette n.cluster
  · intro n₁ h₁ n₂ h₂ hcl
    rw [key req res hres n₁ h₁, key req res hres n₂ h₂, hcl]
  · intro req₂ res₂ hres₂ n₁ h₁ n₂ h₂ hcl
    rw [key req res hres n₁ h₁, key req₂ res₂ hres₂ n₂ h₂, hcl]

/-! ## Claim C1: node budget and depth bound -/

/-- C1: for every request with `maxNodes ≥ 1`, every successful build result
holds at most `maxNodes` nodes (the root counting toward the budget) and every
node's recorded depth is at most `maxDepth`. -/
theorem build_respects_bounds (store : Store) (req : GraphRequest)
    (res : GraphResult) (hmax : 1 ≤ req.maxNodes)
    (hres : build store req = .ok res) :
    res.nodes.length ≤ req.maxNodes ∧ ∀ n ∈ res.nodes, n.depth ≤ req.maxDepth := by
  obtain ⟨stF, D, F, rfl, hD, hDF, hLI⟩ := build_ok_elim hmax hres
  constructor
  · have h1 : stF.visited.length = stF.nodes.length := by
      rw [hLI.wf.visEq, List.length_map]
    calc (assemble req stF).nodes.length = stF.nodes.length := by
          rw [assemble_nodes_map, List.length_map]
      _ = stF.visited.length := h1.symm
      _ ≤ req.maxNodes := hLI.wf.budget
  · intro n hn
    rw [assemble_nodes_map] at hn
    obtain ⟨n₀, hn₀, hfn⟩ := List.mem_map.mp hn
    rw [← hfn]
    exact le_trans (hLI.depthLe n₀ hn₀) hD

/-! ## Claim C9: the root node -/

/-- C9: every successful build result contains a node whose id is the request's
root id and whose depth is 0. -/
theorem build_root_present (store : Store) (req : GraphRequest)
    (res : GraphResult) (hmax : 1 ≤ req.maxNodes)
    (hres : build store req = .ok res) :
    ∃ n ∈ res.nodes, n.id = req.rootId ∧ n.depth = 0 := by
  obtain ⟨stF, D, F, rfl, hD, hDF, hLI⟩ := build_ok_elim hmax hres
  obtain ⟨n₀, hn₀, hid, hd⟩ := hLI.wf.root0
  rw [assemble_nodes_map]
  exact ⟨_, List.mem_map_of_mem _ hn₀, hid, hd⟩

/-! ## Claims C4, C6, C7, C8 -/

lemma mem_keptEdges {st : BuildState} {e : EdgeRec} :
    e ∈ keptEdges st ↔
      e ∈ st.edges ∧ e.sourceId ∈ st.visited ∧ e.targetId ∈ st.visited := by
  unfold keptEdges
  rw [List.mem_filter]
  constructor
  · rintro ⟨h1, h2⟩
    simp only [Bool.and_eq_true] at h2
    exact ⟨h1, by simpa using h2.1, by simpa using h2.2⟩
  · rintro ⟨h1, h2, h3⟩
    refine ⟨h1, ?_⟩
    simp only [Bool.and_eq_true]
    exact ⟨by simpa using h2, by simpa using h3⟩

lemma edgeEnds_ne {mode : Mode} {u rid : String} (h : rid ≠ u) :
    (edgeEnds mode u rid).1 ≠ (edgeEnds mode u rid).2 := by
  cases mode <;> (first | exact h | exact fun hh => h hh.symm)

/-- C7: every edge of a successful build result is well-formed — its endpoints
are distinct (self-relations were discarded during traversal) and both endpoint
ids belong to nodes present in the result (edges referencing an unregistered id
were dropped at assembly time). -/
theorem build_edges_wellformed (store : Store) (req : GraphRequest)
    (res : GraphResult) (hmax : 1 ≤ req.maxNodes)
    (hres : build store req = .ok res) :
    ∀ e ∈ res.edges, e.sourceId ≠ e.targetId ∧
      e.sourceId ∈ res.nodes.map GraphNode.id ∧
      e.targetId ∈ res.nodes.map GraphNode.id := by
  obtain ⟨stF, D, F, rfl, hD, hDF, hLI⟩ := build_ok_elim hmax hres
  intro e he
  rw [assemble_edges_map] at he
  obtain ⟨e₀, he₀, hfe⟩ := List.mem_map.mp he
  have hkept := mem_keptEdges.mp he₀
  obtain ⟨u, rels, r, _, _, hne, hends, _, _, _⟩ := hLI.wf.edgesSound e₀ hkept.1
  refine ⟨?_, ?_, ?_⟩
  · rw [← hfe]
    show e₀.sourceId ≠ e₀.targetId
    have h1 : e₀.sourceId = (edgeEnds req.mode u r.relatedId).1 := by
      rw [← hends]
    have h2 : e₀.targetId = (edgeEnds req.mode u r.relatedId).2 := by
      rw [← hends]
    rw [h1, h2]
    exact edgeEnds_ne hne
  · rw [assemble_ids, ← hLI.wf.visEq, ← hfe]
    exact hkept.2.1
  · rw [assemble_ids, ← hLI.wf.visEq, ← hfe]
    exact hkept.2.2

/-- C6: in a symmetric mode no two result edges represent the same unordered
node pair; in a directed mode no two result edges share the same ordered pair,
and every directed edge stems from a relation that genuinely exists in the
backing store. -/
theorem build_edge_dedup (store : Store) (req : GraphRequest)
    (res : GraphResult) (hmax : 1 ≤ req.maxNodes)
    (hres : build store req = .ok res) :
    (req.mode.directed = false → res.edges.Pairwise (fun e₁ e₂ =>
      ¬((e₁.sourceId = e₂.sourceId ∧ e₁.targetId = e₂.targetId) ∨
        (e₁.sourceId = e₂.targetId ∧ e₁.targetId = e₂.sourceId)))) ∧
    (req.mode.directed = true → res.edges.Pairwise (fun e₁ e₂ =>
      ¬(e₁.sourceId = e₂.sourceId ∧ e₁.targetId = e₂.targetId))) ∧
    (∀ e ∈ res.edges, ∃ u rels r, store.fetch req.mode u = some rels ∧
      r ∈ rels ∧ r.relatedId ≠ u ∧
      (e.sourceId, e.targetId) = edgeEnds req.mode u r.relatedId) := by
  obtain ⟨stF, D, F, rfl, hD, hDF, hLI⟩ := build_ok_elim hmax hres
  have hkPW : List.Pairwise (fun e₁ e₂ =>
      edgeKeyMatches req.mode.directed e₁.sourceId e₁.targetId e₂ = false)
      (keptEdges stF) :=
    hLI.wf.edgesPW.sublist (List.filter_sublist _)
  refine ⟨?_, ?_, ?_⟩
  · intro hdir
    rw [assemble_edges_map, List.pairwise_map]
    refine hkPW.imp ?_
    intro a b hk
    rw [hdir] at hk
    rintro (⟨hs, ht⟩ | ⟨hs, ht⟩)
    · have : edgeKeyMatches false a.sourceId a.targetId b = true := by
        simp only [edgeKeyMatches, if_neg Bool.false_ne_true]
        have hs' : b.sourceId = a.sourceId := hs.symm
        have ht' : b.targetId = a.targetId := ht.symm
        simp [hs', ht']
      exact Bool.noConfusion (this.symm.trans hk)
    · have : edgeKeyMatches false a.sourceId a.targetId b = true := by
        simp only [edgeKeyMatches, if_neg Bool.false_ne_true]
        have hs' : b.targetId = a.sourceId := hs.symm
        have ht' : b.sourceId = a.targetId := ht.symm
        simp [hs', ht']
      exact Bool.noConfusion (this.symm.trans hk)
  · intro hdir
    rw [assemble_edges_map, List.pairwise_map]
    refine hkPW.imp ?_
    intro a b hk
    rw [hdir] at hk
    rintro ⟨hs, ht⟩
    have : edgeKeyMatches true a.sourceId a.targetId b = true := by
      simp only [edgeKeyMatches, if_true]
      have hs' : b.sourceId = a.sourceId := hs.symm
      have ht' : b.targetId = a.targetId := ht.symm
      simp [hs', ht']
    exact Bool.noConfusion (this.symm.trans hk)
  · intro e he
    rw [assemble_edges_map] at he
    obtain ⟨e₀, he₀, hfe⟩ := List.mem_map.mp he
    obtain ⟨u, rels, r, hfetch, hr, hne, hends, _, _, _⟩ :=
      hLI.wf.edgesSound e₀ (mem_keptEdges.mp he₀).1
    refine ⟨u, rels, r, hfetch, hr, hne, ?_⟩
    rw [← hfe]
    exact hends

/-- C8: a failed or timed-out relation fetch is not fatal — whenever the root
resolves, the build still runs to completion and returns a result, and if any
node shallower than the depth limit (hence expanded during the build) had its
fetch fail, the result's truncation flag is raised. -/
theorem build_fetch_failure_nonfatal (store : Store) (req : GraphRequest)
    (m : PaperMeta) (hm : store.getMeta req.rootId = some m)
    (hmax : 1 ≤ req.maxNodes) :
    ∃ res, build store req = .ok res ∧
      ∀ n ∈ res.nodes, n.depth < req.maxDepth →
        store.fetch req.mode n.id = none → res.truncated = true := by
  obtain ⟨D, F, hD, hDF, hLI⟩ :=
    @bfsLoop_levelInv store req.mode req.maxNodes req.rootId req.maxDepth
      req.maxDepth 0 [req.rootId] _
      (init_levelInv store req.mode req.maxNodes req.rootId m hmax) (by omega)
  refine ⟨_, build_eq_ok hm, ?_⟩
  intro n hn hnd hfail
  rw [assemble_truncated]
  rw [assemble_nodes_map] at hn
  obtain ⟨n₀, hn₀, hfn⟩ := List.mem_map.mp hn
  have hnd' : n₀.depth < req.maxDepth := by rw [← hfn] at hnd; exact hnd
  have hfail' : store.fetch req.mode n₀.id = none := by rw [← hfn] at hfail; exact hfail
  exact hLI.failFlag n₀ hn₀ (node_depth_lt hLI hD hDF n₀ hn₀ hnd') hfail'

/-- C4: in every successful build result the node ids are pairwise distinct (a
node's record, in particular its depth, is never replaced on rediscovery),
depth 0 characterises the root, every deeper node was discovered from a node
exactly one BFS level shallower through an actual fetched relation, and no node
is related to any expanded node more than one level above its recorded depth —
its depth is genuinely the level of its first discovery. -/
theorem build_depth_first_discovery (store : Store) (req : GraphRequest)
    (res : GraphResult) (hmax : 1 ≤ req.maxNodes)
    (hres : build store req = .ok res) :
    (res.nodes.map GraphNode.id).Nodup ∧
    (∀ n ∈ res.nodes, (n.depth = 0 ↔ n.id = req.rootId)) ∧
    (∀ n ∈ res.nodes, 0 < n.depth → ∃ m ∈ res.nodes, m.depth + 1 = n.depth ∧
      ∃ rels, store.fetch req.mode m.id = some rels ∧
        ∃ r ∈ rels, r.relatedId = n.id) ∧
    (∀ n ∈ res.nodes, ∀ m ∈ res.nodes, m.depth + 1 < n.depth →
      ∀ rels, store.fetch req.mode m.id = some rels →
        ∀ r ∈ rels, r.relatedId ≠ n.id) := by
  obtain ⟨stF, D, F, rfl, hD, hDF, hLI⟩ := build_ok_elim hmax hres
  have hwf := hLI.wf
  have hnodup : ((assemble req stF).nodes.map GraphNode.id).Nodup := by
    rw [assemble_ids, ← hwf.visEq]
    exact hwf.visNodup
  have hinj : ∀ a ∈ stF.nodes, ∀ b ∈ stF.nodes, a.id = b.id → a = b :=
    List.inj_on_of_nodup_map (by rw [← hwf.visEq]; exact hwf.visNodup)
  refine ⟨hnodup, ?_, ?_, ?_⟩
  · intro n hn
    rw [assemble_nodes_map] at hn
    obtain ⟨n₀, hn₀, hfn⟩ := List.mem_map.mp hn
    rw [← hfn]
    show n₀.depth = 0 ↔ n₀.id = req.rootId
    constructor
    · exact hwf.zeroRoot n₀ hn₀
    · intro hid
      obtain ⟨n₁, hn₁, hid₁, hd₁⟩ := hwf.root0
      have heq : n₀ = n₁ := hinj n₀ hn₀ n₁ hn₁ (by rw [hid, hid₁])
      rw [heq, hd₁]
  · intro n hn hpos
    rw [assemble_nodes_map] at hn
    obtain ⟨n₀, hn₀, hfn⟩ := List.mem_map.mp hn
    have hpos' : 0 < n₀.depth := by rw [← hfn] at hpos; exact hpos
    obtain ⟨m₀, hm₀, hmd, rels, hfetch, r, hr, hrid⟩ := hwf.parent n₀ hn₀ hpos'
    rw [assemble_nodes_map]
    refine ⟨_, List.mem_map_of_mem _ hm₀, ?_, rels, hfetch, r, hr, ?_⟩
    · show m₀.depth + 1 = n.depth
      rw [← hfn]
      exact hmd
    · show r.relatedId = n.id
      rw [← hfn]
      exact hrid
  · intro n hn m hm hlt rels hfetch r hr hcon
    rw [assemble_nodes_map] at hn hm
    obtain ⟨n₀, hn₀, hfn⟩ := List.mem_map.mp hn
    obtain ⟨m₀, hm₀, hfm⟩ := List.mem_map.mp hm
    have hlt' : m₀.depth + 1 < n₀.depth := by rw [← hfn, ← hfm] at hlt; exact hlt
    have hfetch' : store.fetch req.mode m₀.id = some rels := by
      rw [← hfm] at hfetch; exact hfetch
    have hcon' : r.relatedId = n₀.id := by rw [← hfn] at hcon; exact hcon
    have hmD : m₀.depth < D := by
      have := hLI.depthLe n₀ hn₀
      omega
    have hne : r.relatedId ≠ m₀.id := by
      intro heq
      have : n₀ = m₀ := hinj n₀ hn₀ m₀ hm₀ (by rw [← hcon', heq])
      rw [this] at hlt'
      omega
    rcases hLI.outcome m₀ hm₀ hmD rels hfetch' r hr hne with
      ⟨k, hk, hkid, hkd⟩ | ⟨_, hnot⟩
    · have : k = n₀ := hinj k hk n₀ hn₀ (by rw [hkid, hcon'])
      rw [this] at hkd
      omega
    · refine hnot ?_
      rw [hcon']
      exact hwf.mem_visited_of_node hn₀

/-! ## Claim C2: reachability analysis -/

lemma reachSet_stab {store : Store} {mode : Mode} {root : String} {d : Nat}
    (h : reachSet store mode root (d + 1) ⊆ reachSet store mode root d) :
    ∀ k, reachSet store mode root (d + k) = reachSet store mode root d := by
  have heq : reachSet store mode root (d + 1) = reachSet store mode root d :=
    subset_antisymm h (reachSet_le_succ store mode root d)
  intro k
  induction k with
  | zero => rfl
  | succ n ih =>
      calc reachSet store mode root (d + (n + 1))
          = reachSet store mode root (d + n) ∪
              (reachSet store mode root (d + n)).biUnion
                (fun u => (nbrs store mode u).toFinset) := by
            rw [show d + (n + 1) = (d + n) + 1 from rfl, reachSet]
        _ = reachSet store mode root d ∪
              (reachSet store mode root d).biUnion
                (fun u => (nbrs store mode u).toFinset) := by rw [ih]
        _ = reachSet store mode root (d + 1) := by rw [reachSet]
        _ = reachSet store mode root d := heq

lemma reachSet_eq_of_stab {store : Store} {mode : Mode} {root : String}
    {D maxDepth : Nat} (hD : D ≤ maxDepth)
    (h : reachSet store mode root (D + 1) ⊆ reachSet store mode root D) :
    reachSet store mode root maxDepth = reachSet store mode root D := by
  have := reachSet_stab h (maxDepth - D)
  rwa [show D + (maxDepth - D) = maxDepth from by omega] at this

/-- The reachability bookkeeping carried alongside the BFS: if no truncation has
happened the visited set is exactly the reach set of the current level and
the frontier's neighbourhoods cover the next reach set; once truncation has
happened, the true reach set within `maxDepth` provably exceeds the budget. -/
structure ReachInv (store : Store) (mode : Mode) (maxNodes : Nat) (root : String)
    (maxDepth d : Nat) (st : BuildState) (frontier : List String) : Prop where
  visSet : st.truncated = false →
    st.visited.toFinset = reachSet store mode root d
  cover : st.truncated = false →
    reachSet store mode root (d + 1) ⊆
      reachSet store mode root d ∪
        frontier.toFinset.biUnion (fun u => (nbrs store mode u).toFinset)
  big : st.truncated = true →
    maxNodes < (reachSet store mode root maxDepth).card

lemma processRel_visSet {store : Store} {mode : Mode} {maxNodes d : Nat}
    {u : String} {acc : BuildState × List String} {r : Rel}
    (hu_vis : u ∈ acc.1.visited)
    (htr : (processRel store mode maxNodes d u acc r).1.truncated = false) :
    acc.1.truncated = false ∧
    (processRel store mode maxNodes d u acc r).1.visited.toFinset =
      acc.1.visited.toFinset ∪ {r.relatedId} := by
  by_cases h1 : r.relatedId = u
  · rw [processRel_self h1] at htr ⊢
    refine ⟨htr, ?_⟩
    rw [h1]
    exact (Finset.union_eq_left.mpr
      (Finset.singleton_subset_iff.mpr (List.mem_toFinset.mpr hu_vis))).symm
  · by_cases h2 : r.relatedId ∈ acc.1.visited
    · rw [processRel_seen h1 h2] at htr ⊢
      refine ⟨htr, ?_⟩
      exact (Finset.union_eq_left.mpr
        (Finset.singleton_subset_iff.mpr (List.mem_toFinset.mpr h2))).symm
    · by_cases h3 : acc.1.visited.length < maxNodes
      · rw [processRel_admits h1 h2 h3] at htr ⊢
        refine ⟨htr, ?_⟩
        show (acc.1.visited ++ [r.relatedId]).toFinset = _
        rw [List.toFinset_append]
        simp
      · rw [processRel_reject h1 h2 h3] at htr
        cases htr

lemma relsFold_visSet {store : Store} {mode : Mode} {maxNodes d : Nat}
    {u : String} :
    ∀ (rels : List Rel) (acc : BuildState × List String), u ∈ acc.1.visited →
      (rels.foldl (processRel store mode maxNodes d u) acc).1.truncated = false →
      acc.1.truncated = false ∧
      (rels.foldl (processRel store mode maxNodes d u) acc).1.visited.toFinset =
        acc.1.visited.toFinset ∪ (rels.map Rel.relatedId).toFinset := by
  intro rels
  induction rels with
  | nil =>
      intro acc _ htr
      exact ⟨htr, by simp⟩
  | cons r rest ih =>
      intro acc hu htr
      have hu' : u ∈ (processRel store mode maxNodes d u acc r).1.visited :=
        (processRel_extends store mode maxNodes d u acc r).visited_mono u hu
      obtain ⟨htr₁, hset₁⟩ := ih (processRel store mode maxNodes d u acc r) hu' htr
      obtain ⟨htr₀, hset₀⟩ := processRel_visSet hu htr₁
      refine ⟨htr₀, ?_⟩
      rw [List.foldl_cons, hset₁, hset₀]
      rw [List.map_cons, List.toFinset_cons, Finset.union_assoc, Finset.insert_eq]

lemma expandNode_visSet {store : Store} {mode : Mode} {maxNodes d : Nat}
    {u : String} {acc : BuildState × List String} {rels : List Rel}
    (hfetch : store.fetch mode u = some rels) (hu_vis : u ∈ acc.1.visited)
    (htr : (expandNode store mode maxNodes d acc u).1.truncated = false) :
    acc.1.truncated = false ∧
    (expandNode store mode maxNodes d acc u).1.visited.toFinset =
      acc.1.visited.toFinset ∪ (nbrs store mode u).toFinset := by
  have hun : expandNode store mode maxNodes d acc u =
      rels.foldl (processRel store mode maxNodes d u) acc := by
    unfold expandNode
    rw [hfetch]
  rw [hun] at htr ⊢
  obtain ⟨htr₀, hset⟩ := relsFold_visSet rels acc hu_vis htr
  refine ⟨htr₀, ?_⟩
  rw [hset]
  apply Finset.ext
  intro x
  simp only [Finset.mem_union, List.mem_toFinset]
  constructor
  · rintro (hx | hx)
    · exact Or.inl hx
    · by_cases hxu : x = u
      · exact Or.inl (by rw [hxu]; exact hu_vis)
      · refine Or.inr ?_
        unfold nbrs
        rw [hfetch]
        exact List.mem_filter.mpr ⟨hx, bne_iff_ne.mpr hxu⟩
  · rintro (hx | hx)
    · exact Or.inl hx
    · refine Or.inr ?_
      unfold nbrs at hx
      rw [hfetch] at hx
      exact (List.mem_filter.mp hx).1

lemma levelFold_visSet {store : Store} {mode : Mode} {maxNodes d : Nat}
    (htot : ∀ u, ∃ rels, store.fetch mode u = some rels) :
    ∀ (frontier : List String) (acc : BuildState × List String),
      (∀ u ∈ frontier, u ∈ acc.1.visited) →
      (frontier.foldl (expandNode store mode maxNodes d) acc).1.truncated = false →
      acc.1.truncated = false ∧
      (frontier.foldl (expandNode store mode maxNodes d) acc).1.visited.toFinset =
        acc.1.visited.toFinset ∪
          frontier.toFinset.biUnion (fun u => (nbrs store mode u).toFinset) := by
  intro frontier
  induction frontier with
  | nil =>
      intro acc _ htr
      exact ⟨htr, by simp⟩
  | cons u rest ih =>
      intro acc hmem htr
      have hu : u ∈ acc.1.visited := hmem u (List.mem_cons_self u rest)
      have hmem' : ∀ v ∈ rest, v ∈ (expandNode store mode maxNodes d acc u).1.visited :=
        fun v hv => (expandNode_extends store mode maxNodes d acc u).visited_mono v
          (hmem v (List.mem_cons_of_mem u hv))
      obtain ⟨htr₁, hset₁⟩ := ih (expandNode store mode maxNodes d acc u) hmem' htr
      obtain ⟨rels, hfetch⟩ := htot u
      obtain ⟨htr₀, hset₀⟩ := expandNode_visSet hfetch hu htr₁
      refine ⟨htr₀, ?_⟩
      rw [List.foldl_cons, hset₁, hset₀]
      rw [List.toFinset_cons, Finset.biUnion_insert, Finset.union_assoc]

/-- Once the truncation flag is raised, the true reach set within `maxDepth`
provably exceeds the node budget. -/
def Big (store : Store) (mode : Mode) (maxNodes : Nat) (root : String)
    (maxDepth : Nat) (st : BuildState) : Prop :=
  st.truncated = true → maxNodes < (reachSet store mode root maxDepth).card

lemma visited_subset_reach {store : Store} {mode : Mode} {maxNodes : Nat}
    {root : String} {st : BuildState} {bound : Nat}
    (hwf : WF store mode maxNodes root st)
    (hdep : ∀ n ∈ st.nodes, n.depth ≤ bound) :
    st.visited.toFinset ⊆ reachSet store mode root bound := by
  intro x hx
  have hx' := List.mem_toFinset.mp hx
  rw [hwf.visEq] at hx'
  obtain ⟨n, hn, hid⟩ := List.mem_map.mp hx'
  rw [← hid]
  exact reachSet_mono store mode root (hdep n hn) (hwf.inReach n hn)

lemma processRel_big {store : Store} {mode : Mode} {maxNodes : Nat}
    {root : String} {maxDepth d : Nat} {st₀ : BuildState} {u : String}
    {acc : BuildState × List String} {rels : List Rel} {r : Rel}
    (hmid : MidInv store mode maxNodes root d st₀ acc)
    (hu_reach : u ∈ reachSet store mode root d) (hd1 : d + 1 ≤ maxDepth)
    (hfetch : store.fetch mode u = some rels) (hrin : r ∈ rels)
    (hbig : Big store mode maxNodes root maxDepth acc.1) :
    Big store mode maxNodes root maxDepth
      (processRel store mode maxNodes d u acc r).1 := by
  intro htr
  by_cases h1 : r.relatedId = u
  · rw [processRel_self h1] at htr
    exact hbig htr
  · by_cases h2 : r.relatedId ∈ acc.1.visited
    · rw [processRel_seen h1 h2] at htr
      exact hbig htr
    · by_cases h3 : acc.1.visited.length < maxNodes
      · rw [processRel_admits h1 h2 h3] at htr
        exact hbig htr
      · have hvis_sub : acc.1.visited.toFinset ⊆ reachSet store mode root maxDepth :=
          visited_subset_reach hmid.wf
            (fun n hn => le_trans (hmid.depthLe n hn) hd1)
        have hrel_reach : r.relatedId ∈ reachSet store mode root maxDepth :=
          reachSet_mono store mode root hd1
            (mem_reachSet_succ hu_reach (mem_nbrs_of hfetch hrin h1))
        have hsub : insert r.relatedId acc.1.visited.toFinset ⊆
            reachSet store mode root maxDepth :=
          Finset.insert_subset_iff.mpr ⟨hrel_reach, hvis_sub⟩
        have hcard1 : (insert r.relatedId acc.1.visited.toFinset).card =
            acc.1.visited.toFinset.card + 1 :=
          Finset.card_insert_of_not_mem (fun hc => h2 (List.mem_toFinset.mp hc))
        have hlen : acc.1.visited.toFinset.card = acc.1.visited.length :=
          List.toFinset_card_of_nodup hmid.wf.visNodup
        have hle := Finset.card_le_card hsub
        omega

lemma expandNode_big {store : Store} {mode : Mode} {maxNodes : Nat}
    {root : String} {maxDepth d : Nat} {st₀ : BuildState} {u : String}
    {acc : BuildState × List String}
    (htot : ∀ v, ∃ rels, store.fetch mode v = some rels)
    (hmid : MidInv store mode maxNodes root d st₀ acc)
    (hum : ∃ m ∈ st₀.nodes, m.id = u ∧ m.depth = d)
    (hu_reach : u ∈ reachSet store mode root d) (hd1 : d + 1 ≤ maxDepth)
    (hbig : Big store mode maxNodes root maxDepth acc.1) :
    Big store mode maxNodes root maxDepth
      (expandNode store mode maxNodes d acc u).1 := by
  obtain ⟨rels, hfetch⟩ := htot u
  have hun : expandNode store mode maxNodes d acc u =
      rels.foldl (processRel store mode maxNodes d u) acc := by
    unfold expandNode
    rw [hfetch]
  rw [hun]
  exact (foldl_inv
    (fun a => MidInv store mode maxNodes root d st₀ a ∧
      Big store mode maxNodes root maxDepth a.1)
    (processRel store mode maxNodes d u) rels
    (fun s a ha h => ⟨processRel_midInv h.1 hum hfetch ha,
      processRel_big h.1 hu_reach hd1 hfetch ha h.2⟩)
    acc ⟨hmid, hbig⟩).2

lemma levelFold_big {store : Store} {mode : Mode} {maxNodes : Nat}
    {root : String} {maxDepth d : Nat} {st : BuildState} {frontier : List String}
    (htot : ∀ v, ∃ rels, store.fetch mode v = some rels)
    (hLI : LevelInv store mode maxNodes root d st frontier) (hd1 : d + 1 ≤ maxDepth)
    (hbig : Big store mode maxNodes root maxDepth st) :
    Big store mode maxNodes root maxDepth
      (frontier.foldl (expandNode store mode maxNodes d) (st, [])).1 :=
  (foldl_inv
    (fun a => MidInv store mode maxNodes root d st a ∧
      Big store mode maxNodes root maxDepth a.1)
    (expandNode store mode maxNodes d) frontier
    (fun _ v hv h => ⟨expandNode_midInv h.1 (frontier_node hLI v hv),
      expandNode_big htot h.1 (frontier_node hLI v hv)
        ((frontier_facts hLI v hv).2) hd1 h.2⟩)
    (st, []) ⟨levelStart_midInv hLI, hbig⟩).2

lemma level_reachInv {store : Store} {mode : Mode} {maxNodes : Nat}
    {root : String} {maxDepth d : Nat} {st : BuildState} {frontier : List String}
    (htot : ∀ v, ∃ rels, store.fetch mode v = some rels)
    (hLI : LevelInv store mode maxNodes root d st frontier)
    (hRI : ReachInv store mode maxNodes root maxDepth d st frontier)
    (hd : d < maxDepth) :
    ReachInv store mode maxNodes root maxDepth (d + 1)
      (frontier.foldl (expandNode store mode maxNodes d) (st, [])).1
      (frontier.foldl (expandNode store mode maxNodes d) (st, [])).2 := by
  have hLI' := level_levelInv hLI
  have hfr := frontier_facts hLI
  have hvisSet : (frontier.foldl (expandNode store mode maxNodes d) (st, [])).1.truncated = false →
      (frontier.foldl (expandNode store mode maxNodes d) (st, [])).1.visited.toFinset =
        reachSet store mode root (d + 1) := by
    intro htrF
    obtain ⟨htr₀, hvis⟩ :=
      levelFold_visSet htot frontier (st, []) (fun u hu => (hfr u hu).1) htrF
    rw [hvis]
    show st.visited.toFinset ∪ _ = _
    rw [hRI.visSet htr₀]
    apply subset_antisymm
    · apply Finset.union_subset (reachSet_le_succ store mode root d)
      intro x hx
      obtain ⟨u, hu, hxu⟩ := Finset.mem_biUnion.mp hx
      exact mem_reachSet_succ ((hfr u (List.mem_toFinset.mp hu)).2)
        (List.mem_toFinset.mp hxu)
    · exact hRI.cover htr₀
  refine ⟨hvisSet, ?_, ?_⟩
  · intro htrF
    have hvis' := hvisSet htrF
    rw [reachSet]
    apply Finset.union_subset
    · exact Finset.subset_union_left
    · intro x hx
      obtain ⟨u, hu, hxu⟩ := Finset.mem_biUnion.mp hx
      by_cases hud : u ∈ reachSet store mode root d
      · exact Finset.mem_union_left _
          (mem_reachSet_succ hud (List.mem_toFinset.mp hxu))
      · have huv : u ∈ (frontier.foldl (expandNode store mode maxNodes d)
            (st, [])).1.visited := by
          refine List.mem_toFinset.mp ?_
          rw [hvis']
          exact hu
        rw [hLI'.wf.visEq] at huv
        obtain ⟨k, hk, hkid⟩ := List.mem_map.mp huv
        have hkd : k.depth = d + 1 := by
          by_contra hne
          have hle : k.depth ≤ d := by
            have := hLI'.depthLe k hk
            omega
          refine hud ?_
          rw [← hkid]
          exact reachSet_mono store mode root hle (hLI'.wf.inReach k hk)
        have hup2 : u ∈ (frontier.foldl (expandNode store mode maxNodes d)
            (st, [])).2 := by
          rw [hLI'.frontierEq]
          exact List.mem_map.mpr ⟨k, List.mem_filter.mpr ⟨hk, by simp [hkd]⟩, hkid⟩
        exact Finset.mem_union_right _
          (Finset.mem_biUnion.mpr ⟨u, List.mem_toFinset.mpr hup2, hxu⟩)
  · exact levelFold_big htot hLI (by omega) hRI.big

lemma bfsLoop_reachInv {store : Store} {mode : Mode} {maxNodes : Nat}
    {root : String} {maxDepth : Nat}
    (htot : ∀ v, ∃ rels, store.fetch mode v = some rels) :
    ∀ (fuel d : Nat) (frontier : List String) (st : BuildState),
      LevelInv store mode maxNodes root d st frontier →
      ReachInv store mode maxNodes root maxDepth d st frontier →
      d + fuel = maxDepth →
      ∃ D F, D ≤ maxDepth ∧ (D = maxDepth ∨ F = []) ∧
        LevelInv store mode maxNodes root D
          (bfsLoop store mode maxNodes fuel d frontier st) F ∧
        ReachInv store mode maxNodes root maxDepth D
          (bfsLoop store mode maxNodes fuel d frontier st) F := by
  intro fuel
  induction fuel with
  | zero =>
      intro d frontier st hLI hRI hdf
      rw [bfsLoop]
      exact ⟨d, frontier, by omega, Or.inl (by omega), hLI, hRI⟩
  | succ n ih =>
      intro d frontier st hLI hRI hdf
      rw [bfsLoop]
      by_cases hfr : frontier = []
      · rw [if_pos hfr]
        exact ⟨d, [], by omega, Or.inr (Eq.refl _), hfr ▸ hLI, hfr ▸ hRI⟩
      · rw [if_neg hfr]
        exact ih (d + 1) _ _ (level_levelInv hLI)
          (level_reachInv htot hLI hRI (by omega)) (by omega)

/-- C2: over a fully available backing store (no fetch ever fails), a
successful build's truncation flag is raised exactly when the true relation
graph reachable from the root within `maxDepth` holds more nodes than
`maxNodes`; natural exhaustion of the graph leaves the flag down. -/
theorem build_truncated_iff_budget (store : Store) (req : GraphRequest)
    (res : GraphResult) (hmax : 1 ≤ req.maxNodes)
    (htot : ∀ u, ∃ rels, store.fetch req.mode u = some rels)
    (hres : build store req = .ok res) :
    (res.truncated = true ↔
      req.maxNodes < (reachSet store req.mode req.rootId req.maxDepth).card) := by
  cases hm : store.getMeta req.rootId with
  | none =>
      unfold build at hres
      rw [hm] at hres
      cases hres
  | some m =>
      rw [build_eq_ok hm] at hres
      injection hres with h
      subst h
      have hLI₀ := init_levelInv store req.mode req.maxNodes req.rootId m hmax
      have hRI₀ : ReachInv store req.mode req.maxNodes req.rootId req.maxDepth 0
          ⟨[req.rootId], [⟨req.rootId, m.title, m.cluster, 0⟩], [], false⟩
          [req.rootId] := by
        refine ⟨?_, ?_, ?_⟩
        · intro _
          show ([req.rootId] : List String).toFinset = _
          rw [reachSet]
          simp
        · intro _
          have hsing : ([req.rootId] : List String).toFinset =
              reachSet store req.mode req.rootId 0 := by
            rw [reachSet]
            simp
          have hsucc : reachSet store req.mode req.rootId (0 + 1) =
              reachSet store req.mode req.rootId 0 ∪
                (reachSet store req.mode req.rootId 0).biUnion
                  (fun u => (nbrs store req.mode u).toFinset) := rfl
          rw [hsucc, hsing]
        · intro h
          exact Bool.noConfusion h
      obtain ⟨D, F, hD, hDF, hLI, hRI⟩ :=
        bfsLoop_reachInv htot req.maxDepth 0 [req.rootId] _ hLI₀ hRI₀ (by omega)
      rw [assemble_truncated]
      constructor
      · exact hRI.big
      · intro hcard
        cases htr : (bfsLoop store req.mode req.maxNodes req.maxDepth 0 [req.rootId]
            ⟨[req.rootId], [⟨req.rootId, m.title, m.cluster, 0⟩], [], false⟩).truncated with
        | true => rfl
        | false =>
            exfalso
            have hvis := hRI.visSet htr
            have hlen := List.toFinset_card_of_nodup hLI.wf.visNodup
            have hbud := hLI.wf.budget
            rcases hDF with rfl | hF
            · have hle : (reachSet store req.mode req.rootId req.maxDepth).card ≤
                  req.maxNodes := by
                rw [← hvis]
                omega
              omega
            · have hsub : reachSet store req.mode req.rootId (D + 1) ⊆
                  reachSet store req.mode req.rootId D := by
                have hc := hRI.cover htr
                rw [hF] at hc
                simpa using hc
              have heqD := reachSet_eq_of_stab hD hsub
              rw [heqD] at hcard
              have hle : (reachSet store req.mode req.rootId D).card ≤
                  req.maxNodes := by
                rw [← hvis]
                omega
              omega

/-! ## Concrete witnesses -/

/-- A three-paper backing store: `P1` shares an author with `P2` and `P3`, and
no other relations exist (spec section 8, example scenarios 1 and 2). -/
def demoStore : Store where
  getMeta id :=
    if id = "P1" then some ⟨"Paper One", "bio", ["a", "b"]⟩
    else if id = "P2" then some ⟨"Paper Two", "bio", ["a"]⟩
    else if id = "P3" then some ⟨"Paper Three", "space", ["b"]⟩
    else none
  fetch _ u :=
    some (if u = "P1" then [⟨"P2", 1, "co-author"⟩, ⟨"P3", 1, "co-author"⟩]
          else if u = "P2" then [⟨"P1", 1, "co-author"⟩]
          else if u = "P3" then [⟨"P1", 1, "co-author"⟩]
          else [])

def demoReq : GraphRequest := ⟨"P1", Mode.Author, 10, 1⟩

def demoReq2 : GraphRequest := ⟨"P1", Mode.Author, 2, 1⟩

def demoRes : GraphResult :=
  { rootId := "P1"
    nodes := [⟨"P1", "Paper One", "bio", "#3cb44b", 2, 0⟩,
              ⟨"P2", "Paper Two", "bio", "#3cb44b", 1, 1⟩,
              ⟨"P3", "Paper Three", "space", "#3cb44b", 1, 1⟩]
    edges := [⟨"P1", "P2", "co-author", 1, "#888"⟩,
              ⟨"P1", "P3", "co-author", 1, "#888"⟩]
    truncated := false }

def demoRes2 : GraphResult :=
  { rootId := "P1"
    nodes := [⟨"P1", "Paper One", "bio", "#3cb44b", 1, 0⟩,
              ⟨"P2", "Paper Two", "bio", "#3cb44b", 1, 1⟩]
    edges := [⟨"P1", "P2", "co-author", 1, "#888"⟩]
    truncated := true }

/-- The same store with the fetch for `P2` failing. -/
def demoFailStore : Store where
  getMeta := demoStore.getMeta
  fetch mode u := if u = "P2" then none else demoStore.fetch mode u

def demoFailReq : GraphRequest := ⟨"P1", Mode.Author, 10, 2⟩

/-- Witness for C1 at spec example scenario 1. -/
theorem build_respects_bounds_witness :
    build demoStore demoReq = Except.ok demoRes ∧
    (demoRes.nodes.length ≤ demoReq.maxNodes ∧
      ∀ n ∈ demoRes.nodes, n.depth ≤ demoReq.maxDepth) :=
  ⟨rfl, build_respects_bounds demoStore demoReq demoRes (by decide) rfl⟩

/-- Witness for C2: at `maxNodes = 2` the three reachable papers exceed the
budget and the result is truncated. -/
theorem build_truncated_iff_budget_witness :
    build demoStore demoReq2 = Except.ok demoRes2 ∧
    (demoRes2.truncated = true ↔
      demoReq2.maxNodes <
        (reachSet demoStore demoReq2.mode demoReq2.rootId demoReq2.maxDepth).card) :=
  ⟨rfl, build_truncated_iff_budget demoStore demoReq2 demoRes2 (by decide)
    (fun _ => ⟨_, rfl⟩) rfl⟩

/-- Witness for C3 at spec example scenario 1. -/
theorem build_deterministic_witness :
    (∀ res₂, build demoStore demoReq = Except.ok res₂ → res₂ = demoRes) ∧
    (∀ n ∈ demoRes.nodes, n.color = colorFor n.cluster ∧ n.color ∈ palette) ∧
    (∀ n₁ ∈ demoRes.nodes, ∀ n₂ ∈ demoRes.nodes, n₁.cluster = n₂.cluster →
      n₁.color = n₂.color) ∧
    (∀ req₂ res₂, build demoStore req₂ = Except.ok res₂ →
      ∀ n₁ ∈ demoRes.nodes, ∀ n₂ ∈ res₂.nodes, n₁.cluster = n₂.cluster →
        n₁.color = n₂.color) :=
  build_deterministic demoStore demoReq demoRes rfl

/-- Witness for C4 at spec example scenario 1. -/
theorem build_depth_first_discovery_witness :
    (demoRes.nodes.map GraphNode.id).Nodup ∧
    (∀ n ∈ demoRes.nodes, (n.depth = 0 ↔ n.id = demoReq.rootId)) ∧
    (∀ n ∈ demoRes.nodes, 0 < n.depth → ∃ m ∈ demoRes.nodes,
      m.depth + 1 = n.depth ∧ ∃ rels, demoStore.fetch demoReq.mode m.id = some rels ∧
        ∃ r ∈ rels, r.relatedId = n.id) ∧
    (∀ n ∈ demoRes.nodes, ∀ m ∈ demoRes.nodes, m.depth + 1 < n.depth →
      ∀ rels, demoStore.fetch demoReq.mode m.id = some rels →
        ∀ r ∈ rels, r.relatedId ≠ n.id) :=
  build_depth_first_discovery demoStore demoReq demoRes (by decide) rfl

/-- Witness for C6 at spec example scenario 1 (symmetric `Author` mode). -/
theorem build_edge_dedup_witness :
    (demoReq.mode.directed = false → demoRes.edges.Pairwise (fun e₁ e₂ =>
      ¬((e₁.sourceId = e₂.sourceId ∧ e₁.targetId = e₂.targetId) ∨
        (e₁.sourceId = e₂.targetId ∧ e₁.targetId = e₂.sourceId)))) ∧
    (demoReq.mode.directed = true → demoRes.edges.Pairwise (fun e₁ e₂ =>
      ¬(e₁.sourceId = e₂.sourceId ∧ e₁.targetId = e₂.targetId))) ∧
    (∀ e ∈ demoRes.edges, ∃ u rels r, demoStore.fetch demoReq.mode u = some rels ∧
      r ∈ rels ∧ r.relatedId ≠ u ∧
      (e.sourceId, e.targetId) = edgeEnds demoReq.mode u r.relatedId) :=
  build_edge_dedup demoStore demoReq demoRes (by decide) rfl

/-- Witness for C7 at spec example scenario 1. -/
theorem build_edges_wellformed_witness :
    build demoStore demoReq = Except.ok demoRes ∧
    ∀ e ∈ demoRes.edges, e.sourceId ≠ e.targetId ∧
      e.sourceId ∈ demoRes.nodes.map GraphNode.id ∧
      e.targetId ∈ demoRes.nodes.map GraphNode.id :=
  ⟨rfl, build_edges_wellformed demoStore demoReq demoRes (by decide) rfl⟩

/-- Witness for C8: the fetch for `P2` fails, the build still returns a result,
and its truncation flag is raised. -/
theorem build_fetch_failure_nonfatal_witness :
    demoFailStore.getMeta demoFailReq.rootId = some ⟨"Paper One", "bio", ["a", "b"]⟩ ∧
    ∃ res, build demoFailStore demoFailReq = Except.ok res ∧
      ∀ n ∈ res.nodes, n.depth < demoFailReq.maxDepth →
        demoFailStore.fetch demoFailReq.mode n.id = none → res.truncated = true :=
  ⟨rfl, build_fetch_failure_nonfatal demoFailStore demoFailReq
    ⟨"Paper One", "bio", ["a", "b"]⟩ rfl (by decide)⟩

/-- Witness for C9 at spec example scenario 1. -/
theorem build_root_present_witness :
    build demoStore demoReq = Except.ok demoRes ∧
    ∃ n ∈ demoRes.nodes, n.id = demoReq.rootId ∧ n.depth = 0 :=
  ⟨rfl, build_root_present demoStore demoReq demoRes (by decide) rfl⟩

end GoK
